import Mathlib

/-!
Verification of the OpenClaw Security core: scan-output parsing
(`parsing.ts`-style helpers in the repository) and rate-limit command
rewriting (`rate-limit.ts`-style module), embedded shallowly.

Strings are modelled as Lean `String` / `List Char`.  JavaScript
`toLowerCase` is modelled on ASCII letters only, and the JavaScript
whitespace class `\s` is modelled by space, tab, newline and carriage
return; all inputs exercised by the development are ASCII.  JavaScript
floating-point number rendering is approximated by exact decimal
expansion (no claim depends on it).
-/

/-- ASCII lower-casing of one character, the fragment of JavaScript
`toLowerCase` relevant to the tool names and flags of this repository. -/
def jsLowerChar (c : Char) : Char :=
  if 65 ≤ c.toNat ∧ c.toNat ≤ 90 then Char.ofNat (c.toNat + 32) else c

/-- Lower-case a character list. -/
def lowerL (l : List Char) : List Char := l.map jsLowerChar

/-- Lower-case a string, modelling JavaScript `String.prototype.toLowerCase`. -/
def lowerS (s : String) : String := ⟨lowerL s.data⟩

/-- Whitespace characters of the JavaScript `\s` class that occur in this
development (space, tab, line feed, carriage return). -/
def jsIsWs (c : Char) : Bool := c = ' ' || c = '\t' || c = '\n' || c = '\r'

/-- Substring test, modelling JavaScript `String.prototype.includes`. -/
def jsIncludes (hay needle : List Char) : Bool := decide (needle <:+: hay)

/-- Helper for splitting on a separator character, keeping empty pieces,
modelling JavaScript `String.prototype.split` with a character separator. -/
def splitOnCharAux (sep : Char) : List Char → List Char → List (List Char)
  | [], cur => [cur.reverse]
  | c :: rest, cur =>
    if c = sep then cur.reverse :: splitOnCharAux sep rest []
    else splitOnCharAux sep rest (c :: cur)

/-- Split on a separator character, keeping empty pieces. -/
def splitOnChar (sep : Char) (l : List Char) : List (List Char) :=
  splitOnCharAux sep l []

/-- Helper collecting maximal runs of non-whitespace characters. -/
def wsWordsAux : List Char → List Char → List (List Char)
  | [], cur => if cur = [] then [] else [cur.reverse]
  | c :: rest, cur =>
    if jsIsWs c then
      if cur = [] then wsWordsAux rest []
      else cur.reverse :: wsWordsAux rest []
    else wsWordsAux rest (c :: cur)

/-- The maximal non-whitespace runs of a character list. -/
def wsWords (l : List Char) : List (List Char) := wsWordsAux l []

/-- Model of `command.trim().split(/\s+/)`: on input with at least one
non-whitespace character this is exactly the list of whitespace-separated
words; on all-whitespace input JavaScript yields `[""]`. -/
def tsSplitWs (l : List Char) : List (List Char) :=
  match wsWords l with
  | [] => [[]]
  | ts => ts

/-- Drop leading and trailing whitespace, modelling JavaScript
`String.prototype.trim` on ASCII input. -/
def trimL (l : List Char) : List Char :=
  ((l.dropWhile jsIsWs).reverse.dropWhile jsIsWs).reverse

/-- Model of `toolPart.split("/").pop() ?? toolPart`: the last
slash-separated segment of a possibly path-qualified tool reference. -/
def jsBasename (t : List Char) : List Char :=
  (splitOnChar '/' t).getLastD t

/-- Join token lists with single spaces, modelling `parts.join(" ")`. -/
def joinSp : List (List Char) → List Char
  | [] => []
  | [t] => t
  | t :: ts => t ++ ' ' :: joinSp ts

/-! ## Rate-limit policy and command rewriting (rate-limit module)

The TypeScript reads `config.toolLimits?.[toolLower]` and
`toolLower in SECURITY_RATE_LIMITS` on plain objects, so the JavaScript
prototype chain is observable: the only members of `Object.prototype`
whose names survive `toLowerCase` are `constructor` (the `Object`
function) and `__proto__` (`Object.prototype` itself); every other
member name contains an upper-case letter.  A resolved flag value is
therefore either a string or one of these two inherited objects, and a
non-string flag value makes the rewriter throw a `TypeError` at
`flags.toLowerCase()`.  Thrown exceptions are modelled with `Except`. -/

/-- A value read from a rate-limit table at runtime: a string, or one of
the two inherited `Object.prototype` members reachable through an
all-lower-case key. -/
inductive FlagsValue where
  | str (s : String)
  | objectCtor
  | objectProto
deriving DecidableEq

/-- JavaScript truthiness of a flags value: the empty string is falsy,
every other value here (non-empty strings, functions, objects) is
truthy. -/
def FlagsValue.truthy : FlagsValue → Bool
  | .str s => s ≠ ""
  | .objectCtor => true
  | .objectProto => true

/-- The inherited `Object.prototype` members visible through an
all-lower-case property name. -/
def protoLookup (key : String) : Option FlagsValue :=
  if key = "constructor" then some .objectCtor
  else if key = "__proto__" then some .objectProto
  else none

/-- The per-tool override map
(`Partial<Record<keyof typeof SECURITY_RATE_LIMITS, string>>`): its key
set is fixed by the TypeScript type to the five supported tool names. -/
structure ToolLimits where
  nmap : Option String := none
  masscan : Option String := none
  ffuf : Option String := none
  nuclei : Option String := none
  hydra : Option String := none
deriving DecidableEq

/-- The override values present in the map. -/
def ToolLimits.overrideValues (tl : ToolLimits) : List String :=
  [tl.nmap, tl.masscan, tl.ffuf, tl.nuclei, tl.hydra].filterMap id

/-- JavaScript property read `toolLimits[key]`: the own property when
the key is one of the five fields, otherwise the prototype chain. -/
def toolLimitsRead (tl : ToolLimits) (key : String) : Option FlagsValue :=
  if key = "nmap" then tl.nmap.map FlagsValue.str
  else if key = "masscan" then tl.masscan.map FlagsValue.str
  else if key = "ffuf" then tl.ffuf.map FlagsValue.str
  else if key = "nuclei" then tl.nuclei.map FlagsValue.str
  else if key = "hydra" then tl.hydra.map FlagsValue.str
  else protoLookup key

/-- Rate limit configuration for security scanning (`RateLimitConfig`).
`toolLimits` is optional, as in the interface; an absent map short-cuts
the optional-chaining read, a present map exposes its prototype. -/
structure RateLimitConfig where
  enabled : Bool
  maxRequestsPerSecond : Option Nat := none
  toolLimits : Option ToolLimits := none
deriving DecidableEq

/-- Built-in default rate-limit flags per tool
(`SECURITY_RATE_LIMITS` in `constants.ts`). -/
def SECURITY_RATE_LIMITS : List (String × String) :=
  [("nmap", "--max-rate 100"),
   ("masscan", "--rate 100"),
   ("ffuf", "-rate 10"),
   ("nuclei", "-rl 10"),
   ("hydra", "-t 4")]

/-- JavaScript combined `key in SECURITY_RATE_LIMITS` test and read: the
`in` operator and the subsequent access both consult the prototype
chain, so an own entry and the two inherited members are all "present". -/
def securityRateLimitsRead (key : String) : Option FlagsValue :=
  match List.lookup key SECURITY_RATE_LIMITS with
  | some v => some (.str v)
  | none => protoLookup key

/-- Decimal rendering of `1 / n` (the `sqlmap` delay value), truncated to
seventeen fractional digits; JavaScript renders the shortest round-trip
representation of the corresponding double, which agrees on the values
used in this development. -/
def fracDigitsAux : Nat → Nat → Nat → List Char
  | 0, _, _ => []
  | _ + 1, 0, _ => []
  | k + 1, rem, n =>
    Char.ofNat (48 + (rem * 10) / n) :: fracDigitsAux k ((rem * 10) % n) n

/-- String form of `1 / rps` as interpolated by the `sqlmap` branch of
`formatRateLimitForTool`. -/
def jsOneOver (n : Nat) : String :=
  if n = 0 then "Infinity"
  else if n = 1 then "1"
  else ⟨'0' :: '.' :: fracDigitsAux 17 1 n⟩

/-- Format rate limit flags for a specific tool from a requests-per-second
value (`formatRateLimitForTool`). -/
def formatRateLimitForTool (tool : String) (rps : Nat) : String :=
  if tool = "nmap" then "--max-rate " ++ toString rps
  else if tool = "masscan" then "--rate " ++ toString rps
  else if tool = "ffuf" then "-rate " ++ toString rps
  else if tool = "nuclei" then "-rl " ++ toString rps
  else if tool = "hydra" then "-t " ++ toString (min rps 16)
  else if tool = "httpx" then "-rl " ++ toString rps
  else if tool = "sqlmap" then "--delay " ++ jsOneOver rps
  else ""

/-- The tail of `getRateLimitFlags` after the override check: the global
requests-per-second override, then the built-in default table behind the
prototype-chain-sensitive `in` test. -/
def resolveRuntimeRest (key : String) (cfg : RateLimitConfig) : FlagsValue :=
  match cfg.maxRequestsPerSecond with
  | some rps => .str (formatRateLimitForTool key rps)
  | none =>
    match securityRateLimitsRead key with
    | some v => v
    | none => .str ""

/-- Resolve the rate-limit flags for a tool (`getRateLimitFlags`).  The
per-tool override read `config.toolLimits?.[toolLower]` is used only when
truthy, and both it and the default-table `in` test see the inherited
`Object.prototype` members. -/
def getRateLimitFlags : String → Option RateLimitConfig → FlagsValue
  | _, none => .str ""
  | tool, some cfg =>
    if cfg.enabled = false then .str ""
    else
      match cfg.toolLimits with
      | some tl =>
        match toolLimitsRead tl (lowerS tool) with
        | some v => if v.truthy then v else resolveRuntimeRest (lowerS tool) cfg
        | none => resolveRuntimeRest (lowerS tool) cfg
      | none => resolveRuntimeRest (lowerS tool) cfg

/-- The fixed list of throttle indicator substrings scanned by the
rewriter (`rateLimitIndicators`). -/
def rateLimitIndicators : List String :=
  ["--max-rate", "--rate", "-rate", "-rl", "--delay", "-t "]

/-- True when the (already lower-cased) command text contains one of the
recognized throttle indicators, modelling the indicator loop of
`injectRateLimits`. -/
def hasIndicator (commandLower : List Char) : Bool :=
  rateLimitIndicators.any fun ind => jsIncludes commandLower ind.data

/-- Inject rate limit flags into a command (`injectRateLimits`).  When
the resolved flags are truthy but not a string — the inherited
`constructor`/`__proto__` members — the source throws a `TypeError` at
`flags.toLowerCase()`, before the indicator scan; the throw is modelled
as `Except.error`. -/
def injectRateLimits : String → Option RateLimitConfig → Except String String
  | command, none => .ok command
  | command, some cfg =>
    if cfg.enabled = false then .ok command
    else
      match tsSplitWs command.data with
      | [] => .ok command
      | toolPart :: rest =>
        match getRateLimitFlags ⟨jsBasename toolPart⟩ (some cfg) with
        | .str flags =>
          if flags = "" then .ok command
          else if hasIndicator (lowerL command.data) then .ok command
          else .ok ⟨joinSp (toolPart :: flags.data :: rest)⟩
        | .objectCtor => .error "TypeError: flags.toLowerCase is not a function"
        | .objectProto => .error "TypeError: flags.toLowerCase is not a function"

instance instDecEqExcept {ε α : Type} [DecidableEq ε] [DecidableEq α] :
    DecidableEq (Except ε α) := fun a b =>
  match a, b with
  | .ok x, .ok y =>
    if h : x = y then isTrue (by rw [h]) else isFalse fun hc => h (Except.ok.inj hc)
  | .ok _, .error _ => isFalse fun hc => Except.noConfusion hc
  | .error _, .ok _ => isFalse fun hc => Except.noConfusion hc
  | .error e, .error f =>
    if h : e = f then isTrue (by rw [h]) else isFalse fun hc => h (Except.error.inj hc)

/-! ## Specification model of policy resolution (spec §4.3)

`resolveSpecLiteral` transcribes the specification's strict first-match
cascade word for word: a per-tool override is returned verbatim whenever
an entry exists, and the cascade only ever produces strings.
`resolveSpecAmendedV` is the amended cascade: an override applies only
when it exists with a non-empty value, and the two inherited
`Object.prototype` members leak through the override map (when one is
present) and through the built-in default table's `in` test. -/

/-- The own (type-level) per-tool override entry for a key, if any. -/
def ownOverride (cfg : RateLimitConfig) (key : String) : Option String :=
  match cfg.toolLimits with
  | some tl =>
    if key = "nmap" then tl.nmap
    else if key = "masscan" then tl.masscan
    else if key = "ffuf" then tl.ffuf
    else if key = "nuclei" then tl.nuclei
    else if key = "hydra" then tl.hydra
    else none
  | none => none

/-- Steps 3–5 of the specification's literal cascade: global numeric
override, then built-in default, then empty. -/
def resolveRateLimitRest (key : String) (cfg : RateLimitConfig) : String :=
  match cfg.maxRequestsPerSecond with
  | some rps => formatRateLimitForTool key rps
  | none => (List.lookup key SECURITY_RATE_LIMITS).getD ""

/-- Spec-literal resolution cascade: an existing per-tool override is
returned verbatim, even when its value is the empty string, and the
result is always a string. -/
def resolveSpecLiteral (tool : String) (cfg : RateLimitConfig) : String :=
  if cfg.enabled = false then ""
  else
    match ownOverride cfg (lowerS tool) with
    | some v => v
    | none => resolveRateLimitRest (lowerS tool) cfg

/-- Steps 3–5 of the amended cascade: global numeric override, then the
built-in default table, whose `in` test also sees the inherited
members. -/
def resolveSpecAmendedRest (tool : String) (cfg : RateLimitConfig) : FlagsValue :=
  match cfg.maxRequestsPerSecond with
  | some rps => .str (formatRateLimitForTool (lowerS tool) rps)
  | none =>
    match List.lookup (lowerS tool) SECURITY_RATE_LIMITS with
    | some v => .str v
    | none =>
      match protoLookup (lowerS tool) with
      | some obj => obj
      | none => .str ""

/-- Amended resolution cascade: a per-tool override applies only when it
exists with a non-empty value; when an override map is present, a tool
name that is an inherited `Object.prototype` member resolves to that
inherited object; otherwise the global value, the built-in default, the
inherited members again, and finally the empty string. -/
def resolveSpecAmendedV (tool : String) (cfg : RateLimitConfig) : FlagsValue :=
  if cfg.enabled = false then .str ""
  else
    match ownOverride cfg (lowerS tool) with
    | some v => if v ≠ "" then .str v else resolveSpecAmendedRest tool cfg
    | none =>
      if cfg.toolLimits.isSome then
        match protoLookup (lowerS tool) with
        | some obj => obj
        | none => resolveSpecAmendedRest tool cfg
      else resolveSpecAmendedRest tool cfg

example :
    injectRateLimits "nmap -sV target.com" (some ⟨true, none, none⟩) =
      .ok "nmap --max-rate 100 -sV target.com" := by decide

example :
    getRateLimitFlags "nmap" (some ⟨true, some 50, none⟩) = .str "--max-rate 50" := by decide

example :
    getRateLimitFlags "NMAP" (some ⟨true, none, none⟩) = .str "--max-rate 100" := by decide

example :
    getRateLimitFlags "constructor" (some ⟨true, none, none⟩) = .objectCtor := by decide

example :
    getRateLimitFlags "__proto__"
      (some ⟨true, none, some ⟨none, none, none, none, none⟩⟩) = .objectProto := by decide

example :
    getRateLimitFlags "constructor" (some ⟨true, some 50, none⟩) = .str "" := by decide

example :
    injectRateLimits "/usr/bin/nmap -p 80 h" (some ⟨true, none, none⟩) =
      .ok "/usr/bin/nmap --max-rate 100 -p 80 h" := by decide

example :
    injectRateLimits "nmap --max-rate 10 h" (some ⟨true, none, none⟩) =
      .ok "nmap --max-rate 10 h" := by decide

example :
    injectRateLimits "constructor --max-rate 5" (some ⟨true, none, none⟩) =
      .error "TypeError: flags.toLowerCase is not a function" := by decide

/-! ## Basic lemmas about the character-level model -/

theorem toNat_ofNatAux {n : Nat} (h : n.isValidChar) :
    (Char.ofNatAux n h).toNat = n := by
  simp [Char.ofNatAux, Char.toNat, UInt32.toNat]

theorem toNat_ofNat_valid {n : Nat} (h : n.isValidChar) :
    (Char.ofNat n).toNat = n := by
  simp only [Char.ofNat]
  rw [dif_pos h]
  exact toNat_ofNatAux h

theorem jsLowerChar_idem (c : Char) : jsLowerChar (jsLowerChar c) = jsLowerChar c := by
  by_cases h : 65 ≤ c.toNat ∧ c.toNat ≤ 90
  · have hv : (c.toNat + 32).isValidChar := Or.inl (by omega)
    have ht : (Char.ofNat (c.toNat + 32)).toNat = c.toNat + 32 := toNat_ofNat_valid hv
    have h1 : jsLowerChar c = Char.ofNat (c.toNat + 32) := by
      unfold jsLowerChar
      rw [if_pos h]
    rw [h1]
    unfold jsLowerChar
    rw [if_neg]
    rw [ht]
    omega
  · have h1 : jsLowerChar c = c := by
      unfold jsLowerChar
      rw [if_neg h]
    rw [h1]
    exact h1

theorem lowerL_idem (l : List Char) : lowerL (lowerL l) = lowerL l := by
  unfold lowerL
  rw [List.map_map]
  exact List.map_congr_left fun a _ => jsLowerChar_idem a

theorem lowerS_idem (s : String) : lowerS (lowerS s) = lowerS s :=
  congrArg String.mk (lowerL_idem s.data)

theorem lowerL_append (a b : List Char) : lowerL (a ++ b) = lowerL a ++ lowerL b :=
  List.map_append jsLowerChar a b

theorem isInfix_lowerL {l₁ l₂ : List Char} (h : l₁ <:+: l₂) :
    lowerL l₁ <:+: lowerL l₂ :=
  List.IsInfix.map jsLowerChar h

theorem hasIndicator_iff (l : List Char) :
    hasIndicator l = true ↔ ∃ ind ∈ rateLimitIndicators, ind.data <:+: l := by
  unfold hasIndicator jsIncludes
  rw [List.any_eq_true]
  constructor
  · rintro ⟨i, hm, hd⟩
    exact ⟨i, hm, of_decide_eq_true hd⟩
  · rintro ⟨i, hm, hd⟩
    exact ⟨i, hm, decide_eq_true hd⟩

theorem mem_of_lookup_eq_some {k v : String} {l : List (String × String)}
    (h : List.lookup k l = some v) : ∃ k', (k', v) ∈ l := by
  induction l with
  | nil => simp [List.lookup] at h
  | cons p t ih =>
    rw [List.lookup] at h
    cases hk : (k == p.1) with
    | false =>
      simp only [hk] at h
      obtain ⟨k', hm⟩ := ih h
      exact ⟨k', List.mem_cons_of_mem _ hm⟩
    | true =>
      simp only [hk] at h
      exact ⟨p.1, by cases p; simp_all⟩

theorem flags_infix_joinSp (t0 f : List Char) (rest : List (List Char)) :
    f <:+: joinSp (t0 :: f :: rest) := by
  cases rest with
  | nil => exact ⟨t0 ++ [' '], [], by simp [joinSp]⟩
  | cons r rs => exact ⟨t0 ++ [' '], ' ' :: joinSp (r :: rs), by simp [joinSp]⟩

theorem indicator_prefix_append (ind pre rest : String)
    (h : ind.data <+: lowerL pre.data) :
    ind.data <:+: lowerL (pre ++ rest).data := by
  have hd : (pre ++ rest).data = pre.data ++ rest.data := by
    cases pre
    cases rest
    rfl
  rw [hd, lowerL_append]
  obtain ⟨t, ht⟩ := h
  exact ⟨[], t ++ lowerL rest.data, by rw [List.nil_append, ← List.append_assoc, ht]⟩

/-- Every non-empty output of `formatRateLimitForTool` contains one of the
recognized throttle indicators. -/
theorem formatRateLimitForTool_indicator (tool : String) (rps : Nat) :
    formatRateLimitForTool tool rps = "" ∨
      ∃ ind ∈ rateLimitIndicators,
        ind.data <:+: lowerL (formatRateLimitForTool tool rps).data := by
  unfold formatRateLimitForTool
  by_cases h1 : tool = "nmap"
  · simp only [h1, if_true]
    exact Or.inr ⟨"--max-rate", by decide, indicator_prefix_append _ "--max-rate " _ (by decide)⟩
  rw [if_neg h1]
  by_cases h2 : tool = "masscan"
  · simp only [h2, if_true]
    exact Or.inr ⟨"--rate", by decide, indicator_prefix_append _ "--rate " _ (by decide)⟩
  rw [if_neg h2]
  by_cases h3 : tool = "ffuf"
  · simp only [h3, if_true]
    exact Or.inr ⟨"-rate", by decide, indicator_prefix_append _ "-rate " _ (by decide)⟩
  rw [if_neg h3]
  by_cases h4 : tool = "nuclei"
  · simp only [h4, if_true]
    exact Or.inr ⟨"-rl", by decide, indicator_prefix_append _ "-rl " _ (by decide)⟩
  rw [if_neg h4]
  by_cases h5 : tool = "hydra"
  · simp only [h5, if_true]
    exact Or.inr ⟨"-t ", by decide, indicator_prefix_append _ "-t " _ (by decide)⟩
  rw [if_neg h5]
  by_cases h6 : tool = "httpx"
  · simp only [h6, if_true]
    exact Or.inr ⟨"-rl", by decide, indicator_prefix_append _ "-rl " _ (by decide)⟩
  rw [if_neg h6]
  by_cases h7 : tool = "sqlmap"
  · simp only [h7, if_true]
    exact Or.inr ⟨"--delay", by decide, indicator_prefix_append _ "--delay " _ (by decide)⟩
  rw [if_neg h7]
  exact Or.inl rfl

/-- Every non-empty value of the built-in default table contains one of
the recognized throttle indicators. -/
theorem default_table_indicator {key v : String}
    (h : List.lookup key SECURITY_RATE_LIMITS = some v) :
    ∃ ind ∈ rateLimitIndicators, ind.data <:+: lowerL v.data := by
  obtain ⟨k', hm⟩ := mem_of_lookup_eq_some h
  simp only [SECURITY_RATE_LIMITS, List.mem_cons, List.not_mem_nil, or_false,
    Prod.mk.injEq] at hm
  rcases hm with ⟨-, rfl⟩ | ⟨-, rfl⟩ | ⟨-, rfl⟩ | ⟨-, rfl⟩ | ⟨-, rfl⟩
  · exact ⟨"--max-rate", by decide, by decide⟩
  · exact ⟨"--rate", by decide, by decide⟩
  · exact ⟨"-rate", by decide, by decide⟩
  · exact ⟨"-rl", by decide, by decide⟩
  · exact ⟨"-t ", by decide, by decide⟩


/-! ## Properties of the prototype-aware lookups -/

theorem protoLookup_not_str {key v : String} :
    protoLookup key = some (FlagsValue.str v) → False := by
  unfold protoLookup
  intro h
  split_ifs at h
  · simp at h
  · simp at h

theorem protoLookup_truthy {key : String} {v : FlagsValue}
    (h : protoLookup key = some v) : v.truthy = true := by
  unfold protoLookup at h
  split_ifs at h
  · injection h with h1
    subst h1
    rfl
  · injection h with h1
    subst h1
    rfl

theorem toolLimitsRead_str_mem {tl : ToolLimits} {key : String} {v : String}
    (h : toolLimitsRead tl key = some (FlagsValue.str v)) :
    v ∈ tl.overrideValues := by
  unfold toolLimitsRead at h
  split_ifs at h
  · cases hn : tl.nmap with
    | none => rw [hn] at h; simp at h
    | some w =>
      rw [hn] at h
      simp only [Option.map_some', Option.some.injEq, FlagsValue.str.injEq] at h
      subst h
      exact List.mem_filterMap.mpr ⟨some w, by simp [hn], rfl⟩
  · cases hn : tl.masscan with
    | none => rw [hn] at h; simp at h
    | some w =>
      rw [hn] at h
      simp only [Option.map_some', Option.some.injEq, FlagsValue.str.injEq] at h
      subst h
      exact List.mem_filterMap.mpr ⟨some w, by simp [hn], rfl⟩
  · cases hn : tl.ffuf with
    | none => rw [hn] at h; simp at h
    | some w =>
      rw [hn] at h
      simp only [Option.map_some', Option.some.injEq, FlagsValue.str.injEq] at h
      subst h
      exact List.mem_filterMap.mpr ⟨some w, by simp [hn], rfl⟩
  · cases hn : tl.nuclei with
    | none => rw [hn] at h; simp at h
    | some w =>
      rw [hn] at h
      simp only [Option.map_some', Option.some.injEq, FlagsValue.str.injEq] at h
      subst h
      exact List.mem_filterMap.mpr ⟨some w, by simp [hn], rfl⟩
  · cases hn : tl.hydra with
    | none => rw [hn] at h; simp at h
    | some w =>
      rw [hn] at h
      simp only [Option.map_some', Option.some.injEq, FlagsValue.str.injEq] at h
      subst h
      exact List.mem_filterMap.mpr ⟨some w, by simp [hn], rfl⟩
  · exact (protoLookup_not_str h).elim

theorem securityRateLimitsRead_str_indicator {key v : String}
    (h : securityRateLimitsRead key = some (FlagsValue.str v)) :
    ∃ ind ∈ rateLimitIndicators, ind.data <:+: lowerL v.data := by
  unfold securityRateLimitsRead at h
  cases hl : List.lookup key SECURITY_RATE_LIMITS with
  | some w =>
    rw [hl] at h
    simp only [Option.some.injEq, FlagsValue.str.injEq] at h
    subst h
    exact default_table_indicator hl
  | none =>
    rw [hl] at h
    exact (protoLookup_not_str h).elim

/-- Every string produced by the tail of resolution is empty or contains
a recognized indicator. -/
theorem resolveRuntimeRest_str_indicator {key : String} {cfg : RateLimitConfig} {s : String}
    (h : resolveRuntimeRest key cfg = FlagsValue.str s) :
    s = "" ∨ ∃ ind ∈ rateLimitIndicators, ind.data <:+: lowerL s.data := by
  unfold resolveRuntimeRest at h
  cases hm : cfg.maxRequestsPerSecond with
  | some rps =>
    rw [hm] at h
    injection h with h1
    rw [← h1]
    exact formatRateLimitForTool_indicator key rps
  | none =>
    rw [hm] at h
    cases hs : securityRateLimitsRead key with
    | some v =>
      rw [hs] at h
      subst h
      exact Or.inr (securityRateLimitsRead_str_indicator hs)
    | none =>
      rw [hs] at h
      injection h with h1
      exact Or.inl h1.symm

/-- Under a policy whose per-tool override values are empty or contain a
recognized indicator, every string the resolver returns is empty or
contains a recognized indicator. -/
theorem getRateLimitFlags_str_indicator (tool : String) (cfg : RateLimitConfig)
    (hOv : ∀ tl, cfg.toolLimits = some tl → ∀ v ∈ tl.overrideValues,
      v = "" ∨ ∃ ind ∈ rateLimitIndicators, ind.data <:+: lowerL v.data)
    {s : String} (h : getRateLimitFlags tool (some cfg) = FlagsValue.str s) :
    s = "" ∨ ∃ ind ∈ rateLimitIndicators, ind.data <:+: lowerL s.data := by
  simp only [getRateLimitFlags] at h
  by_cases he : cfg.enabled = false
  · rw [if_pos he] at h
    injection h with h1
    exact Or.inl h1.symm
  · rw [if_neg he] at h
    split at h
    · rename_i tl htl
      split at h
      · rename_i v htr
        split at h
        · subst h
          exact hOv tl htl s (toolLimitsRead_str_mem htr)
        · exact resolveRuntimeRest_str_indicator h
      · exact resolveRuntimeRest_str_indicator h
    · exact resolveRuntimeRest_str_indicator h

theorem resolveRuntimeRest_blank (cfg : RateLimitConfig) :
    resolveRuntimeRest "" cfg = FlagsValue.str "" := by
  unfold resolveRuntimeRest
  cases hm : cfg.maxRequestsPerSecond with
  | some rps => simp [formatRateLimitForTool]
  | none => simp [securityRateLimitsRead, SECURITY_RATE_LIMITS, protoLookup, List.lookup]

/-- The blank tool reference (from an all-whitespace command) resolves to
the empty string under every policy. -/
theorem getRateLimitFlags_blank (cfg : RateLimitConfig) :
    getRateLimitFlags ⟨jsBasename []⟩ (some cfg) = FlagsValue.str "" := by
  have hkey : lowerS ⟨jsBasename []⟩ = "" := rfl
  simp only [getRateLimitFlags]
  by_cases he : cfg.enabled = false
  · rw [if_pos he]
  · rw [if_neg he, hkey]
    cases htl : cfg.toolLimits with
    | none => exact resolveRuntimeRest_blank cfg
    | some tl =>
      have htr : toolLimitsRead tl "" = none := by
        simp [toolLimitsRead, protoLookup]
      simp only [htr]
      exact resolveRuntimeRest_blank cfg

theorem rest_eq_spec (tool : String) (cfg : RateLimitConfig) :
    resolveRuntimeRest (lowerS tool) cfg = resolveSpecAmendedRest tool cfg := by
  unfold resolveRuntimeRest resolveSpecAmendedRest securityRateLimitsRead
  cases hm : cfg.maxRequestsPerSecond with
  | some rps => rfl
  | none =>
    cases hl : List.lookup (lowerS tool) SECURITY_RATE_LIMITS with
    | some v => simp [hl]
    | none => simp only [hl]

/-- The source resolver agrees everywhere with the amended specification
cascade. -/
theorem getRateLimitFlags_eq_specAmended (tool : String) (cfg : RateLimitConfig) :
    getRateLimitFlags tool (some cfg) = resolveSpecAmendedV tool cfg := by
  simp only [getRateLimitFlags, resolveSpecAmendedV]
  by_cases he : cfg.enabled = false
  · rw [if_pos he, if_pos he]
  rw [if_neg he, if_neg he]
  have hrest := rest_eq_spec tool cfg
  cases htl : cfg.toolLimits with
  | none => simp [ownOverride, htl, hrest]
  | some tl =>
    simp only [ownOverride, htl, Option.isSome_some, if_true]
    unfold toolLimitsRead
    by_cases h1 : lowerS tool = "nmap"
    · simp only [h1, if_true]
      cases hn : tl.nmap with
      | none =>
        simp [protoLookup]
        rw [← h1]
        exact hrest
      | some w =>
        by_cases hw : w = ""
        · simp [hw, FlagsValue.truthy]
          rw [← h1]
          exact hrest
        · simp [hw, FlagsValue.truthy]
    rw [if_neg h1, if_neg h1]
    by_cases h2 : lowerS tool = "masscan"
    · simp only [h2, if_true]
      cases hn : tl.masscan with
      | none =>
        simp [protoLookup]
        rw [← h2]
        exact hrest
      | some w =>
        by_cases hw : w = ""
        · simp [hw, FlagsValue.truthy]
          rw [← h2]
          exact hrest
        · simp [hw, FlagsValue.truthy]
    rw [if_neg h2, if_neg h2]
    by_cases h3 : lowerS tool = "ffuf"
    · simp only [h3, if_true]
      cases hn : tl.ffuf with
      | none =>
        simp [protoLookup]
        rw [← h3]
        exact hrest
      | some w =>
        by_cases hw : w = ""
        · simp [hw, FlagsValue.truthy]
          rw [← h3]
          exact hrest
        · simp [hw, FlagsValue.truthy]
    rw [if_neg h3, if_neg h3]
    by_cases h4 : lowerS tool = "nuclei"
    · simp only [h4, if_true]
      cases hn : tl.nuclei with
      | none =>
        simp [protoLookup]
        rw [← h4]
        exact hrest
      | some w =>
        by_cases hw : w = ""
        · simp [hw, FlagsValue.truthy]
          rw [← h4]
          exact hrest
        · simp [hw, FlagsValue.truthy]
    rw [if_neg h4, if_neg h4]
    by_cases h5 : lowerS tool = "hydra"
    · simp only [h5, if_true]
      cases hn : tl.hydra with
      | none =>
        simp [protoLookup]
        rw [← h5]
        exact hrest
      | some w =>
        by_cases hw : w = ""
        · simp [hw, FlagsValue.truthy]
          rw [← h5]
          exact hrest
        · simp [hw, FlagsValue.truthy]
    rw [if_neg h5, if_neg h5]
    cases hp : protoLookup (lowerS tool) with
    | some obj => simp [hp, protoLookup_truthy hp]
    | none => rw [hrest]

/-! ## Tokens produced by the whitespace split -/

theorem wsWordsAux_mem_spec :
    ∀ (l acc : List Char), (∀ c ∈ acc, jsIsWs c = false) →
      ∀ t ∈ wsWordsAux l acc, t ≠ [] ∧ ∀ c ∈ t, jsIsWs c = false := by
  intro l
  induction l with
  | nil =>
    intro acc hacc t ht
    unfold wsWordsAux at ht
    by_cases ha : acc = []
    · simp [ha] at ht
    · simp only [ha, if_false, List.mem_singleton] at ht
      subst ht
      refine ⟨by simpa using ha, ?_⟩
      intro c hc
      exact hacc c (List.mem_reverse.mp hc)
  | cons c rest ih =>
    intro acc hacc t ht
    unfold wsWordsAux at ht
    by_cases hwc : jsIsWs c = true
    · simp only [hwc, if_true] at ht
      by_cases ha : acc = []
      · simp only [ha, if_pos rfl] at ht
        exact ih [] (by simp) t ht
      · simp only [ha, if_false, List.mem_cons] at ht
        rcases ht with rfl | ht
        · refine ⟨by simpa using ha, ?_⟩
          intro d hd
          exact hacc d (List.mem_reverse.mp hd)
        · exact ih [] (by simp) t ht
    · have hwc' : jsIsWs c = false := by simpa using hwc
      simp only [hwc', if_false] at ht
      refine ih (c :: acc) ?_ t ht
      intro d hd
      rcases List.mem_cons.mp hd with rfl | hd
      · exact hwc'
      · exact hacc d hd

theorem tsSplitWs_head_nonws {l t0 : List Char} {rest : List (List Char)}
    (h : tsSplitWs l = t0 :: rest) (ht0 : t0 ≠ []) :
    ∀ c ∈ t0, jsIsWs c = false := by
  unfold tsSplitWs at h
  cases hw : wsWords l with
  | nil =>
    rw [hw] at h
    simp only [List.cons.injEq] at h
    exact absurd h.1.symm ht0
  | cons a w =>
    rw [hw] at h
    simp only [List.cons.injEq] at h
    have hmem : t0 ∈ wsWords l := by
      rw [hw, ← h.1]
      exact List.mem_cons_self a w
    exact (wsWordsAux_mem_spec l [] (by simp) t0 hmem).2

theorem wsWordsAux_token_space :
    ∀ (t0 acc z : List Char), (∀ c ∈ t0, jsIsWs c = false) →
      (acc ≠ [] ∨ t0 ≠ []) →
      wsWordsAux (t0 ++ ' ' :: z) acc = (acc.reverse ++ t0) :: wsWordsAux z [] := by
  intro t0
  induction t0 with
  | nil =>
    intro acc z _ hne
    have ha : acc ≠ [] := by
      rcases hne with h1 | h1
      · exact h1
      · exact absurd rfl h1
    simp only [List.nil_append, wsWordsAux]
    simp [jsIsWs, ha]
  | cons c t ih =>
    intro acc z h hne
    have hc : jsIsWs c = false := h c (List.mem_cons_self c t)
    have hstep : wsWordsAux ((c :: t) ++ ' ' :: z) acc =
        wsWordsAux (t ++ ' ' :: z) (c :: acc) := by
      simp only [List.cons_append, wsWordsAux, hc, Bool.false_eq_true, if_false]
      rfl
    rw [hstep, ih (c :: acc) z (fun d hd => h d (List.mem_cons_of_mem c hd)) (Or.inl (by simp))]
    simp

theorem tsSplitWs_joinSp (t0 f : List Char) (rest : List (List Char))
    (ht0 : t0 ≠ []) (hnw : ∀ c ∈ t0, jsIsWs c = false) :
    tsSplitWs (joinSp (t0 :: f :: rest)) = t0 :: wsWordsAux (joinSp (f :: rest)) [] := by
  have hj : joinSp (t0 :: f :: rest) = t0 ++ ' ' :: joinSp (f :: rest) := rfl
  rw [hj]
  unfold tsSplitWs wsWords
  rw [wsWordsAux_token_space t0 [] (joinSp (f :: rest)) hnw (Or.inr ht0)]
  simp

/-! ## Claim C2 -/

/-- C2 (corrected, counterexample): two deviations from the claimed
cascade.  An existing per-tool override whose value is the empty string
is skipped by the source's truthiness check, which falls through to the
built-in default; and a tool name that is an inherited
`Object.prototype` member escapes the cascade entirely, resolving to the
inherited object instead of the empty string. -/
theorem C2_counterexample :
    getRateLimitFlags "nmap" (some ⟨true, none, some ⟨some "", none, none, none, none⟩⟩) =
        .str "--max-rate 100" ∧
      resolveSpecLiteral "nmap" ⟨true, none, some ⟨some "", none, none, none, none⟩⟩ = "" ∧
      getRateLimitFlags "nmap" (some ⟨true, none, some ⟨some "", none, none, none, none⟩⟩) ≠
        .str (resolveSpecLiteral "nmap" ⟨true, none, some ⟨some "", none, none, none, none⟩⟩) ∧
      getRateLimitFlags "constructor" (some ⟨true, none, none⟩) = .objectCtor ∧
      getRateLimitFlags "constructor" (some ⟨true, none, none⟩) ≠
        .str (resolveSpecLiteral "constructor" ⟨true, none, none⟩) :=
  ⟨by decide, by decide, by decide, by decide, by decide⟩

/-- C2, amended: policy resolution follows strict first-match precedence
with lookups on the lowercased tool name: empty when disabled; otherwise
a per-tool override verbatim if one exists with a non-empty value;
otherwise, when an override map is present, the inherited
`Object.prototype` members `constructor` and `__proto__` resolve to the
inherited (non-string) object; otherwise a set global
requests-per-second value formatted with the tool's canonical template
(empty for tools without one); otherwise the tool's built-in default
entry verbatim; otherwise the inherited members again, through the `in`
test; otherwise the empty string.  In particular
`getRateLimitFlags "nmap" {enabled := true, maxRequestsPerSecond := 50}`
is `"--max-rate 50"`. -/
theorem C2_resolution_precedence :
    (∀ (tool : String) (cfg : RateLimitConfig),
        getRateLimitFlags tool (some cfg) = resolveSpecAmendedV tool cfg) ∧
      getRateLimitFlags "nmap" (some ⟨true, some 50, none⟩) = .str "--max-rate 50" :=
  ⟨getRateLimitFlags_eq_specAmended, by decide⟩

/-! ## Claim C3 -/

/-- C3 (corrected, counterexample): a command containing a recognized
indicator is not always returned unchanged: when the first token's
basename lowercases to the inherited `constructor` member, the resolver
produces the inherited `Object` function, which is truthy but not a
string, and the rewriter throws a `TypeError` at `flags.toLowerCase()`
before the indicator scan ever runs. -/
theorem C3_counterexample :
    injectRateLimits "constructor --max-rate 5" (some ⟨true, none, none⟩) =
        .error "TypeError: flags.toLowerCase is not a function" ∧
      ("--max-rate".data <:+: lowerL ("constructor --max-rate 5" : String).data) ∧
      injectRateLimits "constructor --max-rate 5" (some ⟨true, none, none⟩) ≠
        .ok "constructor --max-rate 5" :=
  ⟨by decide, by decide, by decide⟩

/-- C3, amended: a command whose lower-cased text contains any of the
recognized throttle indicator substrings is never returned modified by
`injectRateLimits` under any policy: the rewriter returns it unchanged
whenever it returns at all, and for the degenerate tool names whose
resolved flags are an inherited non-string object it throws the
`TypeError` before the indicator scan. -/
theorem C3_indicator_never_modified (command : String)
    (config : Option RateLimitConfig) (ind : String)
    (hmem : ind ∈ rateLimitIndicators)
    (hsub : ind.data <:+: lowerL command.data) :
    injectRateLimits command config = .ok command ∨
      injectRateLimits command config =
        .error "TypeError: flags.toLowerCase is not a function" := by
  have hany : hasIndicator (lowerL command.data) = true :=
    (hasIndicator_iff _).mpr ⟨ind, hmem, hsub⟩
  cases config with
  | none => exact Or.inl rfl
  | some cfg =>
    simp only [injectRateLimits]
    split
    · exact Or.inl rfl
    · split
      · exact Or.inl rfl
      · split
        · split
          · exact Or.inl rfl
          · exact Or.inl rfl
        · exact Or.inr rfl
        · exact Or.inr rfl

/-- Witness for C3: an `nmap` command that already carries `-RL 5`, the
`nuclei`/`httpx` indicator written in upper case, is left unchanged, and
the amended disjunction holds of it. -/
theorem C3_witness :
    ("-rl" ∈ rateLimitIndicators) ∧
      ("-rl".data <:+: lowerL ("nmap -RL 5 host" : String).data) ∧
      injectRateLimits "nmap -RL 5 host" (some ⟨true, none, none⟩) = .ok "nmap -RL 5 host" ∧
      (injectRateLimits "nmap -RL 5 host" (some ⟨true, none, none⟩) = .ok "nmap -RL 5 host" ∨
        injectRateLimits "nmap -RL 5 host" (some ⟨true, none, none⟩) =
          .error "TypeError: flags.toLowerCase is not a function") :=
  ⟨by decide, by decide, by decide,
    C3_indicator_never_modified "nmap -RL 5 host" (some ⟨true, none, none⟩) "-rl"
      (by decide) (by decide)⟩

/-! ## Claim C10 -/

/-- C10 (confirmed): tool-name lookup is case-insensitive: resolution of
any tool name agrees with resolution of its lower-cased form — the
source lowercases before every lookup and ASCII lowercasing is
idempotent, so the two runs read the identical keys, inherited members
included — and `getRateLimitFlags "NMAP"` under an enabled default
policy yields `"--max-rate 100"`. -/
theorem C10_case_insensitive_lookup :
    (∀ (tool : String) (config : Option RateLimitConfig),
        getRateLimitFlags tool config = getRateLimitFlags (lowerS tool) config) ∧
      getRateLimitFlags "NMAP" (some ⟨true, none, none⟩) = .str "--max-rate 100" := by
  constructor
  · intro tool config
    cases config with
    | none => rfl
    | some cfg =>
      simp only [getRateLimitFlags]
      rw [lowerS_idem]
  · decide

/-- Evaluation of the rewriter in the insertion branch: a first token
whose basename resolves to non-empty string flags, with no indicator in
the command, yields the spliced command. -/
theorem inject_eval_insert (command : String) (cfg : RateLimitConfig)
    (t0 : List Char) (rest : List (List Char)) (s : String)
    (hsplit : tsSplitWs command.data = t0 :: rest)
    (hflags : getRateLimitFlags ⟨jsBasename t0⟩ (some cfg) = .str s)
    (hs : s ≠ "") (hind : hasIndicator (lowerL command.data) = false) :
    injectRateLimits command (some cfg) = .ok ⟨joinSp (t0 :: s.data :: rest)⟩ := by
  have he : ¬cfg.enabled = false := by
    intro he0
    have h0 : getRateLimitFlags ⟨jsBasename t0⟩ (some cfg) = .str "" := by
      simp only [getRateLimitFlags]
      rw [if_pos he0]
    rw [h0] at hflags
    exact hs (FlagsValue.str.inj hflags).symm
  simp only [injectRateLimits]
  simp [he, hsplit, hflags, hs, hind]

/-- Evaluation of the rewriter in the keep branch: when the first token
resolves to string flags and the command already carries an indicator,
the command passes through unchanged. -/
theorem inject_eval_keep (command : String) (cfg : RateLimitConfig)
    (t0 : List Char) (rest : List (List Char)) (s : String)
    (hsplit : tsSplitWs command.data = t0 :: rest)
    (hflags : getRateLimitFlags ⟨jsBasename t0⟩ (some cfg) = .str s)
    (hind : hasIndicator (lowerL command.data) = true) :
    injectRateLimits command (some cfg) = .ok command := by
  by_cases he : cfg.enabled = false
  · simp only [injectRateLimits]
    simp [he]
  · simp only [injectRateLimits]
    by_cases hs : s = "" <;> simp [he, hsplit, hflags, hind, hs]

/-! ## Claim C8 -/

/-- C8 (confirmed): when the first token's basename resolves under the
policy to a non-empty flag string and the command text contains no
recognized throttle indicator, the rewriter inserts the resolved flags as
a new token immediately after the first token and re-joins all tokens
with single spaces; in particular
`injectRateLimits "nmap -sV target.com" {enabled := true}` is
`"nmap --max-rate 100 -sV target.com"`. -/
theorem C8_inserts_flags_after_tool :
    (∀ (command : String) (cfg : RateLimitConfig) (t0 : List Char)
        (rest : List (List Char)) (s : String),
        tsSplitWs command.data = t0 :: rest →
        getRateLimitFlags ⟨jsBasename t0⟩ (some cfg) = .str s →
        s ≠ "" →
        hasIndicator (lowerL command.data) = false →
        injectRateLimits command (some cfg) = .ok ⟨joinSp (t0 :: s.data :: rest)⟩) ∧
      injectRateLimits "nmap -sV target.com" (some ⟨true, none, none⟩) =
        .ok "nmap --max-rate 100 -sV target.com" := by
  constructor
  · intro command cfg t0 rest s hsplit hflags hs hind
    exact inject_eval_insert command cfg t0 rest s hsplit hflags hs hind
  · decide

/-- Witness for C8: the general insertion statement applied to the
concrete command `/usr/bin/nmap -p 80 h`, exercising the basename
stripping. -/
theorem C8_witness :
    injectRateLimits "/usr/bin/nmap -p 80 h" (some ⟨true, none, none⟩) =
      .ok "/usr/bin/nmap --max-rate 100 -p 80 h" := by
  have h := C8_inserts_flags_after_tool.1 "/usr/bin/nmap -p 80 h" ⟨true, none, none⟩
    "/usr/bin/nmap".data ["-p".data, "80".data, "h".data] "--max-rate 100"
    (by decide) (by decide) (by decide) (by decide)
  rw [h]
  decide

/-! ## Claim C1 -/

/-- C1 (corrected, counterexample): rewriting is not idempotent for every
enabled policy.  A per-tool override whose value contains no recognized
throttle indicator is injected again on the second pass: with override
`nmap ↦ "--custom 5"` the first rewrite of `"nmap -sV x"` yields
`"nmap --custom 5 -sV x"` and the second inserts the flags once more. -/
theorem C1_counterexample :
    injectRateLimits "nmap -sV x"
        (some ⟨true, none, some ⟨some "--custom 5", none, none, none, none⟩⟩) =
      .ok "nmap --custom 5 -sV x" ∧
    injectRateLimits "nmap --custom 5 -sV x"
        (some ⟨true, none, some ⟨some "--custom 5", none, none, none, none⟩⟩) =
      .ok "nmap --custom 5 --custom 5 -sV x" ∧
    (injectRateLimits "nmap -sV x"
        (some ⟨true, none, some ⟨some "--custom 5", none, none, none, none⟩⟩)).bind
      (fun c => injectRateLimits c
        (some ⟨true, none, some ⟨some "--custom 5", none, none, none, none⟩⟩)) ≠
      injectRateLimits "nmap -sV x"
        (some ⟨true, none, some ⟨some "--custom 5", none, none, none, none⟩⟩) :=
  ⟨by decide, by decide, by decide⟩

/-- C1, amended (proved): rewriting is idempotent for every command and
every enabled policy whose per-tool override values are each empty or
contain, case-insensitively, a recognized throttle indicator — in
particular for every enabled policy without per-tool overrides, since the
built-in defaults and every canonical flag template carry their own
indicator, which the second pass detects.  Idempotence is Kleisli
idempotence of the fallible rewriter: a first pass that throws is
propagated unchanged, and a first pass that returns is a fixed point of
a second pass. -/
theorem C1_rewrite_idempotent (command : String) (cfg : RateLimitConfig)
    (hEn : cfg.enabled = true)
    (hOv : ∀ tl, cfg.toolLimits = some tl → ∀ v ∈ tl.overrideValues,
      v = "" ∨ ∃ ind ∈ rateLimitIndicators, ind.data <:+: lowerL v.data) :
    (injectRateLimits command (some cfg)).bind
        (fun c => injectRateLimits c (some cfg)) =
      injectRateLimits command (some cfg) := by
  have he : ¬cfg.enabled = false := by
    rw [hEn]
    decide
  cases htok : tsSplitWs command.data with
  | nil =>
    have h1 : injectRateLimits command (some cfg) = .ok command := by
      simp only [injectRateLimits]
      simp [he, htok]
    rw [h1]
    show injectRateLimits command (some cfg) = .ok command
    exact h1
  | cons t0 rest =>
    cases hf : getRateLimitFlags ⟨jsBasename t0⟩ (some cfg) with
    | objectCtor =>
      have h1 : injectRateLimits command (some cfg) =
          .error "TypeError: flags.toLowerCase is not a function" := by
        simp only [injectRateLimits]
        simp [he, htok, hf]
      rw [h1]
      rfl
    | objectProto =>
      have h1 : injectRateLimits command (some cfg) =
          .error "TypeError: flags.toLowerCase is not a function" := by
        simp only [injectRateLimits]
        simp [he, htok, hf]
      rw [h1]
      rfl
    | str s =>
      by_cases hs : s = ""
      · have h1 : injectRateLimits command (some cfg) = .ok command := by
          simp only [injectRateLimits]
          simp [he, htok, hf, hs]
        rw [h1]
        show injectRateLimits command (some cfg) = .ok command
        exact h1
      · by_cases hi : hasIndicator (lowerL command.data) = true
        · have h1 : injectRateLimits command (some cfg) = .ok command := by
            simp only [injectRateLimits]
            simp [he, htok, hf, hs, hi]
          rw [h1]
          show injectRateLimits command (some cfg) = .ok command
          exact h1
        · have hib : hasIndicator (lowerL command.data) = false :=
            Bool.eq_false_iff.mpr hi
          have h1 : injectRateLimits command (some cfg) =
              .ok ⟨joinSp (t0 :: s.data :: rest)⟩ :=
            inject_eval_insert command cfg t0 rest s htok hf hs hib
          rw [h1]
          show injectRateLimits ⟨joinSp (t0 :: s.data :: rest)⟩ (some cfg) =
            .ok ⟨joinSp (t0 :: s.data :: rest)⟩
          have ht0 : t0 ≠ [] := by
            intro h0
            subst h0
            have hb := getRateLimitFlags_blank cfg
            rw [hf] at hb
            exact hs (FlagsValue.str.inj hb)
          have hnw : ∀ c ∈ t0, jsIsWs c = false := tsSplitWs_head_nonws htok ht0
          have hsplit2 : tsSplitWs (⟨joinSp (t0 :: s.data :: rest)⟩ : String).data =
              t0 :: wsWordsAux (joinSp (s.data :: rest)) [] :=
            tsSplitWs_joinSp t0 s.data rest ht0 hnw
          rcases getRateLimitFlags_str_indicator ⟨jsBasename t0⟩ cfg hOv hf
            with h0 | ⟨ind, hmem, hinf⟩
          · exact absurd h0 hs
          · have hc'ind :
                hasIndicator (lowerL (⟨joinSp (t0 :: s.data :: rest)⟩ : String).data) = true := by
              rw [hasIndicator_iff]
              refine ⟨ind, hmem, ?_⟩
              have h2 : s.data <:+: joinSp (t0 :: s.data :: rest) :=
                flags_infix_joinSp t0 s.data rest
              exact hinf.trans (isInfix_lowerL h2)
            exact inject_eval_keep ⟨joinSp (t0 :: s.data :: rest)⟩ cfg t0
              (wsWordsAux (joinSp (s.data :: rest)) []) s hsplit2 hf hc'ind

/-- Witness for C1: the amended idempotence applied to the spec's own
example command under the enabled default policy. -/
theorem C1_witness :
    (injectRateLimits "nmap -sV target.com" (some ⟨true, none, none⟩)).bind
        (fun c => injectRateLimits c (some ⟨true, none, none⟩)) =
      injectRateLimits "nmap -sV target.com" (some ⟨true, none, none⟩) :=
  C1_rewrite_idempotent "nmap -sV target.com" ⟨true, none, none⟩ rfl
    (fun tl h => nomatch h)

/-! ## JSON values and a model of `JSON.parse`

JSON numbers are modelled as exact rationals (JavaScript parses them to
IEEE doubles; no claim inspects numeric rounding).  Lone surrogate
`\uXXXX` escapes, which Lean's `Char` cannot represent, collapse to the
null character. -/

/-- Parsed JSON value. -/
inductive JsValue where
  | null
  | bool (b : Bool)
  | num (q : ℚ)
  | str (s : String)
  | arr (elems : List JsValue)
  | obj (fields : List (String × JsValue))

/-- JSON whitespace (exactly space, tab, line feed, carriage return). -/
def skipWsJ (l : List Char) : List Char :=
  l.dropWhile fun c => c = ' ' || c = '\t' || c = '\n' || c = '\r'

/-- Value of one hexadecimal digit. -/
def hexVal (c : Char) : Option Nat :=
  if c.isDigit then some (c.toNat - 48)
  else if 'a' ≤ c ∧ c ≤ 'f' then some (c.toNat - 87)
  else if 'A' ≤ c ∧ c ≤ 'F' then some (c.toNat - 55)
  else none

/-- Body of a JSON string after the opening quote: returns the decoded
characters and the remaining input after the closing quote. -/
def parseJsonStringAux : List Char → List Char → Option (List Char × List Char)
  | [], _ => none
  | '\\' :: 'u' :: h1 :: h2 :: h3 :: h4 :: rest, acc =>
    match hexVal h1, hexVal h2, hexVal h3, hexVal h4 with
    | some a, some b, some c, some d =>
      parseJsonStringAux rest (Char.ofNat (a * 4096 + b * 256 + c * 16 + d) :: acc)
    | _, _, _, _ => none
  | ['\\'], _ => none
  | ['\\', _], _ => none
  | ['\\', _, _], _ => none
  | ['\\', _, _, _], _ => none
  | ['\\', _, _, _, _], _ => none
  | '\\' :: e :: rest, acc =>
    if e = '"' then parseJsonStringAux rest ('"' :: acc)
    else if e = '\\' then parseJsonStringAux rest ('\\' :: acc)
    else if e = '/' then parseJsonStringAux rest ('/' :: acc)
    else if e = 'b' then parseJsonStringAux rest (Char.ofNat 8 :: acc)
    else if e = 'f' then parseJsonStringAux rest (Char.ofNat 12 :: acc)
    else if e = 'n' then parseJsonStringAux rest ('\n' :: acc)
    else if e = 'r' then parseJsonStringAux rest ('\r' :: acc)
    else if e = 't' then parseJsonStringAux rest ('\t' :: acc)
    else none
  | c :: rest, acc =>
    if c = '"' then some (acc.reverse, rest)
    else if c.toNat < 32 then none
    else parseJsonStringAux rest (c :: acc)

/-- Numeric value of a digit run. -/
def natOfDigits (ds : List Char) : Nat :=
  ds.foldl (fun acc c => acc * 10 + (c.toNat - 48)) 0

/-- Parse the optional exponent tail of a JSON number after `e`/`E`:
returns the exponent's sign, magnitude and the remaining input. -/
def parseJsonExpTail (r : List Char) : Option (Bool × Nat × List Char) :=
  let signAndRest : Bool × List Char :=
    match r with
    | '+' :: r2 => (false, r2)
    | '-' :: r2 => (true, r2)
    | _ => (false, r)
  let ed := signAndRest.2.takeWhile Char.isDigit
  if ed = [] then none
  else some (signAndRest.1, natOfDigits ed, signAndRest.2.drop ed.length)

/-- Parse a JSON number literal into an exact rational.  The value is
assembled from integer arithmetic and a single `mkRat` so that concrete
inputs evaluate inside the kernel. -/
def parseJsonNumber (l : List Char) : Option (ℚ × List Char) :=
  let signAndRest : Int × List Char :=
    match l with
    | '-' :: r => (-1, r)
    | _ => (1, l)
  let sign := signAndRest.1
  let l1 := signAndRest.2
  let ip := l1.takeWhile Char.isDigit
  if ip = [] then none
  else if 1 < ip.length ∧ ip.headD 'x' = '0' then none
  else
    let l2 := l1.drop ip.length
    let fracPart : Option (List Char × List Char) :=
      match l2 with
      | '.' :: r =>
        let fd := r.takeWhile Char.isDigit
        if fd = [] then none else some (fd, r.drop fd.length)
      | _ => some ([], l2)
    match fracPart with
    | none => none
    | some (fd, l3) =>
      let expPart : Option (Bool × Nat × List Char) :=
        match l3 with
        | 'e' :: r => parseJsonExpTail r
        | 'E' :: r => parseJsonExpTail r
        | _ => some (false, 0, l3)
      match expPart with
      | none => none
      | some (eneg, e, l4) =>
        let mant : Int := sign * ((natOfDigits ip * 10 ^ fd.length + natOfDigits fd : Nat) : Int)
        let v : ℚ :=
          if eneg then mkRat mant (10 ^ (fd.length + e))
          else mkRat (mant * ((10 ^ e : Nat) : Int)) (10 ^ fd.length)
        some (v, l4)

mutual

/-- Fueled recursive-descent parser for one JSON value; returns the value
and the remaining input. -/
def parseJsonValue : Nat → List Char → Option (JsValue × List Char)
  | 0, _ => none
  | fuel + 1, l =>
    match skipWsJ l with
    | 'n' :: 'u' :: 'l' :: 'l' :: rest => some (.null, rest)
    | 't' :: 'r' :: 'u' :: 'e' :: rest => some (.bool true, rest)
    | 'f' :: 'a' :: 'l' :: 's' :: 'e' :: rest => some (.bool false, rest)
    | '"' :: rest =>
      match parseJsonStringAux rest [] with
      | some (cs, rest2) => some (.str ⟨cs⟩, rest2)
      | none => none
    | '[' :: rest =>
      match skipWsJ rest with
      | ']' :: rest3 => some (.arr [], rest3)
      | rest2 =>
        match parseJsonElems fuel rest2 with
        | some (xs, rest3) => some (.arr xs, rest3)
        | none => none
    | '{' :: rest =>
      match skipWsJ rest with
      | '}' :: rest3 => some (.obj [], rest3)
      | rest2 =>
        match parseJsonMembers fuel rest2 with
        | some (fs, rest3) => some (.obj fs, rest3)
        | none => none
    | rest =>
      match parseJsonNumber rest with
      | some (q, rest2) => some (.num q, rest2)
      | none => none

/-- Fueled parser for the elements of a non-empty JSON array, up to and
including the closing bracket. -/
def parseJsonElems : Nat → List Char → Option (List JsValue × List Char)
  | 0, _ => none
  | fuel + 1, l =>
    match parseJsonValue fuel l with
    | none => none
    | some (v, rest) =>
      match skipWsJ rest with
      | ',' :: rest2 =>
        match parseJsonElems fuel rest2 with
        | some (xs, rest3) => some (v :: xs, rest3)
        | none => none
      | ']' :: rest2 => some ([v], rest2)
      | _ => none

/-- Fueled parser for the members of a non-empty JSON object, up to and
including the closing brace. -/
def parseJsonMembers : Nat → List Char → Option (List (String × JsValue) × List Char)
  | 0, _ => none
  | fuel + 1, l =>
    match skipWsJ l with
    | '"' :: rest =>
      match parseJsonStringAux rest [] with
      | none => none
      | some (key, rest2) =>
        match skipWsJ rest2 with
        | ':' :: rest3 =>
          match parseJsonValue fuel rest3 with
          | none => none
          | some (v, rest4) =>
            match skipWsJ rest4 with
            | ',' :: rest5 =>
              match parseJsonMembers fuel rest5 with
              | some (fs, rest6) => some ((⟨key⟩, v) :: fs, rest6)
              | none => none
            | '}' :: rest5 => some ([(⟨key⟩, v)], rest5)
            | _ => none
        | _ => none
    | _ => none

end

/-- Model of `JSON.parse`: parse one value, require only whitespace after
it, otherwise fail (`SyntaxError` is modelled by `none`).  The fuel is an
upper bound on the parser's recursion depth, always sufficient because
every two recursive steps consume at least one input character. -/
def jsonParse (l : List Char) : Option JsValue :=
  match parseJsonValue (2 * l.length + 2) l with
  | some (v, rest) => if skipWsJ rest = [] then some v else none
  | none => none

example : jsonParse "not json".data = none := rfl

example : (jsonParse "5".data).isSome = true := rfl

example : (jsonParse "\x7b\"a\": [1, \"x\"]\x7d".data).isSome = true := rfl

example : (jsonParse "\x7b\"a\": [1, \"x\"\x7d".data).isSome = false := rfl

/-! ## JavaScript-side access and coercion helpers -/

/-- Last-wins association lookup, matching the semantics of duplicate
keys in a JavaScript object literal produced by `JSON.parse`. -/
def lookupLastField (fs : List (String × JsValue)) (k : String) : Option JsValue :=
  List.lookup k fs.reverse

/-- Property access `v[k]`: a field of an object, `undefined` (`none`)
otherwise.  Access on `null` throws in JavaScript and is handled by the
callers that model the corresponding `try`/`catch`. -/
def fieldOf (v : JsValue) (k : String) : Option JsValue :=
  match v with
  | .obj fs => lookupLastField fs k
  | _ => none

/-- The value when it is a JSON string.  Non-string field values, which
the TypeScript source would pass through despite its `string`-typed
interfaces, are not modelled and are treated as absent. -/
def strHere : JsValue → Option String
  | .str s => some s
  | _ => none

/-- String-valued field access; `null` and absent both yield `none`,
matching the `??` fallback chains of the source. -/
def strField (v : JsValue) (k : String) : Option String :=
  (fieldOf v k).bind strHere

/-- Model of `obj.info?.name`-style access through the optional `info`
object. -/
def infoStrField (v : JsValue) (k : String) : Option String :=
  (fieldOf v "info").bind fun inner => strField inner k

/-- String-array-valued field access (`extracted-results`); non-string
elements are dropped. -/
def arrStrField (v : JsValue) (k : String) : Option (List String) :=
  match fieldOf v k with
  | some (.arr xs) => some (xs.filterMap strHere)
  | _ => none

/-- Whether a JSON value is `null`. -/
def isNullJs : JsValue → Bool
  | .null => true
  | _ => false

/-- Decimal rendering of a rational, truncated to seventeen fractional
digits; approximates the JavaScript `String(number)` rendering, which no
claim inspects. -/
def ratToJsDecimal (q : ℚ) : String :=
  (if q.num < 0 then "-" else "") ++ toString (q.num.natAbs / q.den) ++
    (if q.num.natAbs % q.den = 0 then "" else ⟨'.' :: fracDigitsAux 17 (q.num.natAbs % q.den) q.den⟩)

mutual

/-- Model of the JavaScript `String(x)` coercion on JSON values. -/
def jsToString : JsValue → String
  | .null => "null"
  | .bool true => "true"
  | .bool false => "false"
  | .num q => ratToJsDecimal q
  | .str s => s
  | .arr xs => String.intercalate "," (jsToStringArrayElems xs)
  | .obj _ => "[object Object]"

/-- Array elements under `String`: `null` renders as the empty string
inside `Array.prototype.join`. -/
def jsToStringArrayElems : List JsValue → List String
  | [] => []
  | JsValue.null :: xs => "" :: jsToStringArrayElems xs
  | x :: xs => jsToString x :: jsToStringArrayElems xs

end

/-- Model of the JavaScript `Number(s)` coercion for strings: trimmed
empty input is zero, a numeric literal parses exactly, anything else
(JavaScript `NaN`, hexadecimal forms) is not modelled and yields zero; no
claim inspects these values. -/
def jsStringToNumber (s : String) : ℚ :=
  let t := trimL s.data
  if t = [] then 0
  else
    match parseJsonNumber t with
    | some (q, rest) => if rest = [] then q else 0
    | none => 0

/-- Model of the JavaScript `Number(x)` coercion on JSON values
(arrays and objects, `NaN` in JavaScript for most shapes, yield zero; no
claim inspects these values). -/
def jsToNumber : JsValue → ℚ
  | .null => 0
  | .bool true => 1
  | .bool false => 0
  | .num q => q
  | .str s => jsStringToNumber s
  | .arr _ => 0
  | .obj _ => 0

/-- Model of `x ?? dflt` on a possibly absent JSON value: `null` and
`undefined` (absent) both select the fallback. -/
def jsCoalesce (o : Option JsValue) (dflt : JsValue) : JsValue :=
  match o with
  | some JsValue.null => dflt
  | some v => v
  | none => dflt

/-! ## Nuclei finding-stream parser (`parseNucleiJson`) -/

/-- Parsed nuclei finding (`NucleiFinding`).  Fields are strings, as the
TypeScript interface declares. -/
structure NucleiFinding where
  templateId : String
  name : String
  severity : String
  type : String
  host : String
  matched : String
  extractedResults : Option (List String) := none
  timestamp : String
  curl : Option String := none
deriving DecidableEq

/-- Field extraction for one decoded (non-`null`) finding line, with the
source's alias fallback chains.  `now` is the value of
`new Date().toISOString()` at the moment of the call, used only when the
record carries no timestamp. -/
def decodeNucleiFinding (v : JsValue) (now : String) : NucleiFinding :=
  { templateId := ((strField v "template-id").or (strField v "templateId")).getD "unknown"
    name := ((infoStrField v "name").or (strField v "name")).getD "Unknown"
    severity := ((infoStrField v "severity").or (strField v "severity")).getD "info"
    type := (strField v "type").getD "unknown"
    host := (strField v "host").getD ""
    matched := ((strField v "matched").or (strField v "matched-at")).getD ""
    extractedResults := (arrStrField v "extracted-results").or (arrStrField v "extractedResults")
    timestamp := (strField v "timestamp").getD now
    curl := (strField v "curl-command").or (strField v "curl") }

/-- One iteration of the `parseNucleiJson` line loop: skip blank lines,
skip lines that fail to decode, skip lines decoding to `null` (whose
property accesses throw into the `catch`), and otherwise extract a
finding. -/
def decodeNucleiLine (line : List Char) (now : String) : Option NucleiFinding :=
  if trimL line = [] then none
  else
    match jsonParse (trimL line) with
    | some JsValue.null => none
    | some v => some (decodeNucleiFinding v now)
    | none => none

/-- Parse nuclei newline-delimited JSON output (`parseNucleiJson`).  The
hidden clock read `new Date().toISOString()` of the source is made an
explicit parameter `now`. -/
def parseNucleiJson (jsonl : String) (now : String) : List NucleiFinding :=
  (splitOnChar '\n' jsonl.data).filterMap fun line => decodeNucleiLine line now

/-- True when the line is blank, undecodable, or carries its own
timestamp — exactly the cases in which `decodeNucleiLine` ignores the
clock. -/
def nucleiLineClockFree (line : List Char) : Bool :=
  if trimL line = [] then true
  else
    match jsonParse (trimL line) with
    | some JsValue.null => true
    | some v => (strField v "timestamp").isSome
    | none => true

/-- True when no decodable line of the input is missing its timestamp
field, i.e. when `parseNucleiJson` never reads the clock. -/
def nucleiClockFree (jsonl : String) : Bool :=
  (splitOnChar '\n' jsonl.data).all nucleiLineClockFree

example :
    parseNucleiJson "\x7b\"severity\":\"banana\"\x7d" "T0" =
      [⟨"unknown", "Unknown", "banana", "unknown", "", "", none, "T0", none⟩] := by decide

example :
    parseNucleiJson "bad\n\x7b\"host\":\"h\",\"timestamp\":\"T\"\x7d" "NOW" =
      [⟨"unknown", "Unknown", "info", "unknown", "h", "", none, "T", none⟩] := by decide

/-! ## Ffuf result parser (`parseFfufJson`) -/

/-- Parsed ffuf result (`FfufResult`); numeric fields are rationals
standing for JavaScript numbers. -/
structure FfufResult where
  url : String
  status : ℚ
  length : ℚ
  words : ℚ
  lines : ℚ
  contentType : Option String := none
  redirectLocation : Option String := none
deriving DecidableEq

/-- Field conversion for one ffuf result entry, mirroring the
`String(...)`/`Number(...)` coercions and `as string` casts of the
source. -/
def toFfufResult (r : JsValue) : FfufResult :=
  { url := jsToString (jsCoalesce (fieldOf r "url") (.str ""))
    status := jsToNumber (jsCoalesce (fieldOf r "status") (.num 0))
    length := jsToNumber (jsCoalesce (fieldOf r "length") (.num 0))
    words := jsToNumber (jsCoalesce (fieldOf r "words") (.num 0))
    lines := jsToNumber (jsCoalesce (fieldOf r "lines") (.num 0))
    contentType := strField r "content-type"
    redirectLocation := strField r "redirectlocation" }

/-- Parse ffuf JSON output (`parseFfufJson`).  A malformed document, a
non-array `results` value, or a `null` element (whose property access
throws) all fall into the source's `catch` and yield the empty list. -/
def parseFfufJson (json : String) : List FfufResult :=
  match jsonParse json.data with
  | none => []
  | some v =>
    match fieldOf v "results" with
    | some (.arr xs) => if xs.any isNullJs then [] else xs.map toFfufResult
    | _ => []

example :
    parseFfufJson
        "\x7b\"results\":[\x7b\"url\":\"http://t/a\",\"status\":200,\"length\":10,\"words\":2,\"lines\":1\x7d]\x7d" =
      [⟨"http://t/a", 200, 10, 2, 1, none, none⟩] := by decide

example : parseFfufJson "\x7b\"results\": 5\x7d" = [] := by decide

/-! ## Nmap XML report parser (`parseNmapXml`)

The source extracts host and port fragments with JavaScript regular
expressions.  Each pattern is the composition of literal pieces, a
greedy single-character class, and a lazy tail; the scanners below model
the engine's leftmost-match discipline directly: try a match at each
position, and on failure advance one character. -/

/-- Split around the first occurrence of `needle`: returns the part
before it and the part after it. -/
def findSplitSub (needle : List Char) : List Char → Option (List Char × List Char)
  | [] => if needle = [] then some ([], []) else none
  | c :: rest =>
    if needle.isPrefixOf (c :: rest) then some ([], (c :: rest).drop needle.length)
    else
      match findSplitSub needle rest with
      | some (pre, post) => some (c :: pre, post)
      | none => none

/-- Try pattern `lit` + `([^"]+)` + `"` at the current position. -/
def tryCaptureHere (lit l : List Char) : Option (List Char) :=
  if lit.isPrefixOf l then
    let after := l.drop lit.length
    let cs := after.takeWhile fun ch => !(ch == '"')
    if cs = [] then none
    else
      match after.drop cs.length with
      | '"' :: _ => some cs
      | _ => none
  else none

/-- First match of `lit` + `([^"]+)` + `"` anywhere in the input
(`String.prototype.match` with a capturing group). -/
def captureAfter (lit : List Char) : List Char → Option (List Char)
  | [] => none
  | c :: rest =>
    match tryCaptureHere lit (c :: rest) with
    | some cs => some cs
    | none => captureAfter lit rest

/-- Try pattern `lit` + an alternation of fixed words + `"` at the
current position. -/
def tryAltHere (lit : List Char) (alts : List (List Char)) (l : List Char) :
    Option (List Char) :=
  if lit.isPrefixOf l then
    let after := l.drop lit.length
    alts.findSome? fun alt =>
      if alt.isPrefixOf after then
        match after.drop alt.length with
        | '"' :: _ => some alt
        | _ => none
      else none
  else none

/-- First match of `lit` + alternation + `"` anywhere in the input. -/
def captureAlt (lit : List Char) (alts : List (List Char)) : List Char → Option (List Char)
  | [] => none
  | c :: rest =>
    match tryAltHere lit alts (c :: rest) with
    | some s => some s
    | none => captureAlt lit alts rest

/-- Try the host pattern `<host` + `[^>]*` + `>` + lazy tail + `</host>`
at the current position; returns the full match and the rest of the
input after it. -/
def tryHostHere (l : List Char) : Option (List Char × List Char) :=
  if ("<host" : String).data.isPrefixOf l then
    let a1 := l.drop 5
    let mid := a1.takeWhile fun ch => !(ch == '>')
    match a1.drop mid.length with
    | '>' :: tail =>
      match findSplitSub ("</host>" : String).data tail with
      | some (content, rest) =>
        some (("<host" : String).data ++ mid ++ '>' :: content ++ ("</host>" : String).data,
          rest)
      | none => none
    | _ => none
  else none

/-- All host fragments, in input order, modelling
`xml.matchAll(/<host[^>]*>[\s\S]*?<\/host>/g)`: match at the current
position or advance one character. -/
def scanHosts : Nat → List Char → List (List Char)
  | 0, _ => []
  | _ + 1, [] => []
  | fuel + 1, c :: rest0 =>
    match tryHostHere (c :: rest0) with
    | some (matched, rest) => matched :: scanHosts fuel rest
    | none => scanHosts fuel rest0

/-- The `(tcp|udp)` alternation of the port pattern, tried in regex
order. -/
def tryPortProto (a1 : List Char) : Option String :=
  if "tcp".data.isPrefixOf a1 then some "tcp"
  else if "udp".data.isPrefixOf a1 then some "udp"
  else none

/-- The part of the port pattern after the protocol capture:
`" portid="` + `(\d+)` + `"` + lazy tail + `</port>`; returns the digit
capture, the lazily matched content, and the rest of the input. -/
def tryPortTail (a2 : List Char) : Option (List Char × List Char × List Char) :=
  let lit2 := ("\" portid=\"" : String).data
  if lit2.isPrefixOf a2 then
    let a3 := a2.drop lit2.length
    let ds := a3.takeWhile Char.isDigit
    if ds = [] then none
    else
      match a3.drop ds.length with
      | '"' :: tail =>
        match findSplitSub ("</port>" : String).data tail with
        | some (content, rest) => some (ds, content, rest)
        | none => none
      | _ => none
  else none

/-- Try the port pattern
`<port protocol="(tcp|udp)" portid="(\d+)"` + lazy tail + `</port>` at
the current position; returns the protocol capture, the port number, the
full match, and the rest of the input. -/
def tryPortHere (l : List Char) : Option (String × Nat × List Char × List Char) :=
  if ("<port protocol=\"" : String).data.isPrefixOf l then
    match tryPortProto (l.drop 16) with
    | none => none
    | some proto =>
      match tryPortTail ((l.drop 16).drop proto.data.length) with
      | none => none
      | some (ds, content, rest) =>
        some (proto, natOfDigits ds,
          ("<port protocol=\"" : String).data ++ proto.data ++ ("\" portid=\"" : String).data ++
            ds ++ '"' :: content ++ ("</port>" : String).data,
          rest)
  else none

/-- All port fragments of a host fragment, in input order, modelling
`hostXml.matchAll(/<port protocol="(tcp|udp)" portid="(\d+)"[\s\S]*?<\/port>/g)`:
protocol capture, port number, and full fragment text. -/
def scanPorts : Nat → List Char → List (String × Nat × List Char)
  | 0, _ => []
  | _ + 1, [] => []
  | fuel + 1, c :: rest0 =>
    match tryPortHere (c :: rest0) with
    | some (proto, port, matched, rest) => (proto, port, matched) :: scanPorts fuel rest
    | none => scanPorts fuel rest0

/-- Parsed nmap port result (`NmapPort`).  `protocol` and `state` are
strings, as produced by the source's capture groups. -/
structure NmapPort where
  port : Nat
  protocol : String
  state : String
  service : Option String := none
  version : Option String := none
  product : Option String := none
deriving DecidableEq

/-- Parsed nmap host result (`NmapHost`). -/
structure NmapHost where
  address : String
  hostname : Option String := none
  status : String
  ports : List NmapPort
  os : Option String := none
deriving DecidableEq

/-- Field extraction for one port fragment: state defaults to
`"filtered"` when absent or not one of the three enumerated words;
service, product and version are independent optional captures. -/
def parseNmapPort (proto : String) (portNum : Nat) (portXml : List Char) : NmapPort :=
  { port := portNum
    protocol := proto
    state :=
      ((captureAlt ("<state state=\"" : String).data
        ["open".data, "closed".data, "filtered".data] portXml).map fun cs => (⟨cs⟩ : String)).getD
        "filtered"
    service := (captureAfter ("<service name=\"" : String).data portXml).map fun cs => ⟨cs⟩
    product := (captureAfter ("product=\"" : String).data portXml).map fun cs => ⟨cs⟩
    version := (captureAfter ("version=\"" : String).data portXml).map fun cs => ⟨cs⟩ }

/-- Field extraction for one host fragment: a fragment without an
address capture is skipped; status defaults to `"down"`. -/
def parseHostBlock (hostXml : List Char) : Option NmapHost :=
  match captureAfter ("<address addr=\"" : String).data hostXml with
  | none => none
  | some addr =>
    some
      { address := ⟨addr⟩
        hostname := (captureAfter ("<hostname name=\"" : String).data hostXml).map fun cs => ⟨cs⟩
        status :=
          ((captureAlt ("<status state=\"" : String).data ["up".data, "down".data]
            hostXml).map fun cs => (⟨cs⟩ : String)).getD "down"
        ports := (scanPorts (hostXml.length + 1) hostXml).map fun t =>
          parseNmapPort t.1 t.2.1 t.2.2
        os := (captureAfter ("<osmatch name=\"" : String).data hostXml).map fun cs => ⟨cs⟩ }

/-- Parse nmap XML output to structured form (`parseNmapXml`). -/
def parseNmapXml (xml : String) : List NmapHost :=
  (scanHosts (xml.data.length + 1) xml.data).filterMap parseHostBlock

set_option maxRecDepth 40000 in
example :
    parseNmapXml
        "<host><address addr=\"10.0.0.1\"/><status state=\"up\"/><port protocol=\"tcp\" portid=\"80\"><state state=\"open\"/><service name=\"http\"/></port></host>" =
      [⟨"10.0.0.1", none, "up", [⟨80, "tcp", "open", some "http", none, none⟩], none⟩] := by
  decide

set_option maxRecDepth 40000 in
example : parseNmapXml "no hosts here" = [] := by decide

/-! ## Invariants of the port and state captures -/

theorem tryAltHere_mem {lit : List Char} {alts : List (List Char)} {l s : List Char}
    (h : tryAltHere lit alts l = some s) : s ∈ alts := by
  unfold tryAltHere at h
  by_cases hp : lit.isPrefixOf l
  · simp only [hp, if_true] at h
    obtain ⟨alt, hmem, halt⟩ := List.exists_of_findSome?_eq_some h
    by_cases hpre : alt.isPrefixOf (l.drop lit.length)
    · simp only [hpre, if_true] at halt
      rcases hd : (l.drop lit.length).drop alt.length with _ | ⟨c, tail⟩ <;>
        rw [hd] at halt
      · simp at halt
      · by_cases hc : c = '"'
        · subst hc
          simp only [Option.some.injEq] at halt
          subst halt
          exact hmem
        · simp [hc] at halt
    · simp [hpre] at halt
  · simp [hp] at h

theorem captureAlt_mem {lit : List Char} {alts : List (List Char)} :
    ∀ {l s : List Char}, captureAlt lit alts l = some s → s ∈ alts := by
  intro l
  induction l with
  | nil =>
    intro s h
    simp [captureAlt] at h
  | cons c rest ih =>
    intro s h
    unfold captureAlt at h
    cases ha : tryAltHere lit alts (c :: rest) with
    | some s' =>
      rw [ha] at h
      cases h
      exact tryAltHere_mem ha
    | none =>
      rw [ha] at h
      exact ih h

theorem tryPortProto_mem {a1 : List Char} {p : String}
    (h : tryPortProto a1 = some p) : p = "tcp" ∨ p = "udp" := by
  unfold tryPortProto at h
  split at h
  · exact Or.inl (Option.some.inj h).symm
  · split at h
    · exact Or.inr (Option.some.inj h).symm
    · cases h

theorem tryPortHere_protocol {l : List Char} {proto : String}
    {port : Nat} {xmlm rest : List Char}
    (h : tryPortHere l = some (proto, port, xmlm, rest)) :
    proto = "tcp" ∨ proto = "udp" := by
  unfold tryPortHere at h
  split at h
  · split at h
    · cases h
    · rename_i p hp
      split at h <;>
        first
        | (cases h
           exact tryPortProto_mem hp)
        | cases h
  · cases h

theorem scanPorts_protocol :
    ∀ (fuel : Nat) (l : List Char) (t : String × Nat × List Char),
      t ∈ scanPorts fuel l → t.1 = "tcp" ∨ t.1 = "udp" := by
  intro fuel
  induction fuel with
  | zero =>
    intro l t ht
    simp [scanPorts] at ht
  | succ fuel ih =>
    intro l t ht
    cases l with
    | nil => simp [scanPorts] at ht
    | cons c rest0 =>
      unfold scanPorts at ht
      cases hp : tryPortHere (c :: rest0) with
      | some q =>
        rw [hp] at ht
        obtain ⟨proto, port, xmlm, rest⟩ := q
        rcases List.mem_cons.mp ht with rfl | hmem
        · exact tryPortHere_protocol hp
        · exact ih rest t hmem
      | none =>
        rw [hp] at ht
        exact ih rest0 t ht

theorem parseNmapPort_state (proto : String) (n : Nat) (xmlp : List Char) :
    (parseNmapPort proto n xmlp).state = "open" ∨
      (parseNmapPort proto n xmlp).state = "closed" ∨
      (parseNmapPort proto n xmlp).state = "filtered" := by
  unfold parseNmapPort
  cases hc : captureAlt ("<state state=\"" : String).data
      ["open".data, "closed".data, "filtered".data] xmlp with
  | none => simp [hc]
  | some s =>
    have hm := captureAlt_mem hc
    simp only [List.mem_cons, List.not_mem_nil, or_false] at hm
    rcases hm with rfl | rfl | rfl <;> simp [hc]

/-! ## Claim C6 -/

set_option maxRecDepth 80000 in
/-- C6 (corrected, counterexample): the port number is not constrained to
1–65535: the digit capture `portid="99999"` parses to a PortRecord with
port number 99999 (and `portid="0"` would likewise yield 0).  Protocol
and state still satisfy their enumerations. -/
theorem C6_counterexample :
    parseNmapXml
        "<host><address addr=\"10.0.0.1\"/><port protocol=\"tcp\" portid=\"99999\"></port></host>" =
      [⟨"10.0.0.1", none, "down", [⟨99999, "tcp", "filtered", none, none, none⟩], none⟩] ∧
      ¬(1 ≤ 99999 ∧ 99999 ≤ 65535) :=
  ⟨by decide, by decide⟩

/-- C6, amended: every PortRecord of every HostRecord returned by
`parseNmapXml` has protocol in the set \x7btcp, udp\x7d and state in the set
\x7bopen, closed, filtered\x7d, with absent or unrecognized state normalized to
`"filtered"`; the port number is the natural number read from the
`portid` digits, with no range restriction. -/
theorem C6_port_record_invariants :
    ∀ (xml : String), ∀ h ∈ parseNmapXml xml, ∀ p ∈ h.ports,
      (p.protocol = "tcp" ∨ p.protocol = "udp") ∧
      (p.state = "open" ∨ p.state = "closed" ∨ p.state = "filtered") := by
  intro xml h hh p hp
  obtain ⟨block, hblock, hparse⟩ := List.mem_filterMap.mp hh
  unfold parseHostBlock at hparse
  cases hc : captureAfter ("<address addr=\"" : String).data block with
  | none => rw [hc] at hparse; cases hparse
  | some addr =>
    rw [hc] at hparse
    cases hparse
    obtain ⟨t, htmem, rfl⟩ := List.mem_map.mp hp
    constructor
    · have hproto := scanPorts_protocol _ _ _ htmem
      simpa [parseNmapPort] using hproto
    · exact parseNmapPort_state _ _ _

set_option maxRecDepth 80000 in
/-- Witness for C6: the invariants instantiated on the host and port
produced from the counterexample report. -/
theorem C6_witness :
    ((⟨99999, "tcp", "filtered", none, none, none⟩ : NmapPort).protocol = "tcp" ∨
      (⟨99999, "tcp", "filtered", none, none, none⟩ : NmapPort).protocol = "udp") ∧
      ((⟨99999, "tcp", "filtered", none, none, none⟩ : NmapPort).state = "open" ∨
        (⟨99999, "tcp", "filtered", none, none, none⟩ : NmapPort).state = "closed" ∨
        (⟨99999, "tcp", "filtered", none, none, none⟩ : NmapPort).state = "filtered") :=
  C6_port_record_invariants
    "<host><address addr=\"10.0.0.1\"/><port protocol=\"tcp\" portid=\"99999\"></port></host>"
    ⟨"10.0.0.1", none, "down", [⟨99999, "tcp", "filtered", none, none, none⟩], none⟩
    (by decide) ⟨99999, "tcp", "filtered", none, none, none⟩ (by decide)

/-! ## Claim C9 -/

/-- C9 (confirmed): on any input that is not a well-formed JSON document
the fuzz-result parser returns the empty sequence; the `catch` makes the
function total, so no exception escapes. -/
theorem C9_malformed_ffuf_empty (s : String) (h : jsonParse s.data = none) :
    parseFfufJson s = [] := by
  unfold parseFfufJson
  rw [h]

/-- Witness for C9: `"not json"` is rejected by the JSON parser and
`parseFfufJson` maps it to the empty list. -/
theorem C9_witness :
    jsonParse ("not json" : String).data = none ∧ parseFfufJson "not json" = [] :=
  ⟨rfl, C9_malformed_ffuf_empty "not json" rfl⟩

/-! ## Claim C5 -/

/-- C5 (code bug): the parser does not normalize unrecognized severity
values: the decodable line with severity `"banana"` yields a record whose
severity is `"banana"`, outside the set declared by the `NucleiFinding`
interface; only absent severity falls back to `"info"`. -/
theorem C5_severity_not_normalized :
    parseNucleiJson "\x7b\"severity\":\"banana\"\x7d" "T0" =
      [⟨"unknown", "Unknown", "banana", "unknown", "", "", none, "T0", none⟩] ∧
      ¬("banana" ∈ (["info", "low", "medium", "high", "critical"] : List String)) :=
  ⟨by decide, by decide⟩

/-! ## Claim C4 -/

/-- C4 (corrected, counterexample): `parseNucleiJson` is not a function
of its input text alone: a decodable line without a timestamp field takes
the current clock reading as its timestamp, so two runs at different
times on the same input differ. -/
theorem C4_counterexample :
    parseNucleiJson "\x7b\"host\":\"h\"\x7d" "2024-01-01T00:00:00.000Z" ≠
      parseNucleiJson "\x7b\"host\":\"h\"\x7d" "2024-01-02T00:00:00.000Z" := by
  decide

theorem filterMap_congr_of_mem {α β : Type} {f g : α → Option β} :
    ∀ {l : List α}, (∀ a ∈ l, f a = g a) → l.filterMap f = l.filterMap g := by
  intro l
  induction l with
  | nil => intro _; rfl
  | cons a t ih =>
    intro h
    rw [List.filterMap_cons, List.filterMap_cons, h a (List.mem_cons_self a t),
      ih fun b hb => h b (List.mem_cons_of_mem a hb)]

theorem decodeNucleiLine_clock_free (line : List Char) (t₁ t₂ : String)
    (h : nucleiLineClockFree line = true) :
    decodeNucleiLine line t₁ = decodeNucleiLine line t₂ := by
  unfold decodeNucleiLine
  unfold nucleiLineClockFree at h
  by_cases ht : trimL line = []
  · simp [ht]
  · simp only [ht, if_false] at h ⊢
    cases hj : jsonParse (trimL line) with
    | none => rfl
    | some v =>
      rw [hj] at h
      cases v with
      | null => rfl
      | bool b =>
        cases hs : strField (JsValue.bool b) "timestamp" with
        | none => simp [hs] at h
        | some ts => simp [decodeNucleiFinding, hs]
      | num q =>
        cases hs : strField (JsValue.num q) "timestamp" with
        | none => simp [hs] at h
        | some ts => simp [decodeNucleiFinding, hs]
      | str s =>
        cases hs : strField (JsValue.str s) "timestamp" with
        | none => simp [hs] at h
        | some ts => simp [decodeNucleiFinding, hs]
      | arr xs =>
        cases hs : strField (JsValue.arr xs) "timestamp" with
        | none => simp [hs] at h
        | some ts => simp [decodeNucleiFinding, hs]
      | obj fs =>
        cases hs : strField (JsValue.obj fs) "timestamp" with
        | none => simp [hs] at h
        | some ts => simp [decodeNucleiFinding, hs]

/-- C4, amended: the report parser, the fuzz-result parser, the resolver
and the rewriter are pure functions of their inputs — equal inputs give
equal outputs — and the finding-stream parser is a pure function of its
input text and the current clock reading (its timestamp fallback);
whenever every decodable line carries its own timestamp, its output is
independent of the clock as well. -/
theorem C4_operations_deterministic :
    (∀ s₁ s₂ : String, s₁ = s₂ → parseNmapXml s₁ = parseNmapXml s₂) ∧
      (∀ s₁ s₂ : String, s₁ = s₂ → parseFfufJson s₁ = parseFfufJson s₂) ∧
      (∀ (t₁ t₂ : String) (c₁ c₂ : Option RateLimitConfig), t₁ = t₂ → c₁ = c₂ →
        getRateLimitFlags t₁ c₁ = getRateLimitFlags t₂ c₂) ∧
      (∀ (s₁ s₂ : String) (c₁ c₂ : Option RateLimitConfig), s₁ = s₂ → c₁ = c₂ →
        injectRateLimits s₁ c₁ = injectRateLimits s₂ c₂) ∧
      (∀ (s now₁ now₂ : String), nucleiClockFree s = true →
        parseNucleiJson s now₁ = parseNucleiJson s now₂) := by
  refine ⟨fun s₁ s₂ h => by rw [h], fun s₁ s₂ h => by rw [h],
    fun t₁ t₂ c₁ c₂ h1 h2 => by rw [h1, h2],
    fun s₁ s₂ c₁ c₂ h1 h2 => by rw [h1, h2], ?_⟩
  intro s now₁ now₂ h
  unfold parseNucleiJson
  unfold nucleiClockFree at h
  exact filterMap_congr_of_mem fun line hline =>
    decodeNucleiLine_clock_free line now₁ now₂ (List.all_eq_true.mp h line hline)

/-- Witness for C4: all five determinism statements instantiated at
concrete inputs; the finding-stream input carries a timestamp on its only
line, so the two different clock readings give the same output. -/
theorem C4_witness :
    parseNmapXml "x" = parseNmapXml "x" ∧
      parseFfufJson "x" = parseFfufJson "x" ∧
      getRateLimitFlags "nmap" none = getRateLimitFlags "nmap" none ∧
      injectRateLimits "nmap" none = injectRateLimits "nmap" none ∧
      parseNucleiJson "\x7b\"timestamp\":\"T\"\x7d" "2024-01-01T00:00:00.000Z" =
        parseNucleiJson "\x7b\"timestamp\":\"T\"\x7d" "2024-01-02T00:00:00.000Z" :=
  ⟨C4_operations_deterministic.1 "x" "x" rfl,
    C4_operations_deterministic.2.1 "x" "x" rfl,
    C4_operations_deterministic.2.2.1 "nmap" "nmap" none none rfl rfl,
    C4_operations_deterministic.2.2.2.1 "nmap" "nmap" none none rfl rfl,
    C4_operations_deterministic.2.2.2.2 "\x7b\"timestamp\":\"T\"\x7d"
      "2024-01-01T00:00:00.000Z" "2024-01-02T00:00:00.000Z" (by decide)⟩

/-! ## Nuclei report formatter (`formatNucleiReport`) -/

/-- ASCII upper-casing of one character, modelling the fragment of
JavaScript `toUpperCase` exercised by the severity labels. -/
def jsUpperChar (c : Char) : Char :=
  if 97 ≤ c.toNat ∧ c.toNat ≤ 122 then Char.ofNat (c.toNat - 32) else c

/-- Upper-case a string, modelling `String.prototype.toUpperCase`. -/
def upperS (s : String) : String := ⟨s.data.map jsUpperChar⟩

/-- The five severity buckets of the report (`bySeverity`). -/
structure SevBuckets where
  critical : List NucleiFinding
  high : List NucleiFinding
  medium : List NucleiFinding
  low : List NucleiFinding
  info : List NucleiFinding
deriving DecidableEq

/-- One iteration of the grouping loop, built on the truthiness test
`if (bySeverity[sev])`: the five own keys hold arrays, truthy even when
empty, and receive the finding; the two all-lower-case inherited
`Object.prototype` members, `constructor` and `__proto__`, read a truthy
non-array whose `push` call throws a `TypeError`; every other name reads
`undefined`, which is falsy, so the finding goes to the `info` bucket. -/
def pushBySeverityE (b : SevBuckets) (f : NucleiFinding) : Except String SevBuckets :=
  if lowerS f.severity = "critical" then .ok { b with critical := b.critical ++ [f] }
  else if lowerS f.severity = "high" then .ok { b with high := b.high ++ [f] }
  else if lowerS f.severity = "medium" then .ok { b with medium := b.medium ++ [f] }
  else if lowerS f.severity = "low" then .ok { b with low := b.low ++ [f] }
  else if lowerS f.severity = "info" then .ok { b with info := b.info ++ [f] }
  else if lowerS f.severity = "constructor" ∨ lowerS f.severity = "__proto__" then
    .error "TypeError: bySeverity[sev].push is not a function"
  else .ok { b with info := b.info ++ [f] }

/-- The grouping loop over the findings, stopping at the first thrown
`TypeError`. -/
def groupBySeverityAux : SevBuckets → List NucleiFinding → Except String SevBuckets
  | b, [] => .ok b
  | b, f :: rest =>
    match pushBySeverityE b f with
    | .ok b1 => groupBySeverityAux b1 rest
    | .error e => .error e

/-- Group findings by severity, in input order within each bucket. -/
def groupBySeverityE (findings : List NucleiFinding) : Except String SevBuckets :=
  groupBySeverityAux ⟨[], [], [], [], []⟩ findings

/-- The summary block: five fixed bucket lines, emitted unconditionally. -/
def nucleiSummaryLines (b : SevBuckets) : List String :=
  ["## Summary",
   "- Critical: " ++ toString b.critical.length,
   "- High: " ++ toString b.high.length,
   "- Medium: " ++ toString b.medium.length,
   "- Low: " ++ toString b.low.length,
   "- Info: " ++ toString b.info.length,
   ""]

/-- The emoji prefixed to a severity's detail heading. -/
def nucleiSeverityEmoji (severity : String) : String :=
  if severity = "critical" then "🔴"
  else if severity = "high" then "🟠"
  else if severity = "medium" then "🟡"
  else if severity = "low" then "🟢"
  else "🔵"

/-- Detail lines for one finding. -/
def nucleiFindingLines (f : NucleiFinding) : List String :=
  ["### " ++ f.name,
   "- Template: `" ++ f.templateId ++ "`",
   "- Host: " ++ f.host,
   "- Matched: " ++ f.matched] ++
  (match f.extractedResults with
   | some xs => if xs = [] then [] else ["- Extracted: " ++ String.intercalate ", " xs]
   | none => []) ++
  [""]

/-- Detail section for one severity bucket; empty buckets are skipped
(`continue`). -/
def nucleiSeveritySection (severity : String) (sevFindings : List NucleiFinding) :
    List String :=
  if sevFindings = [] then []
  else
    ("## " ++ nucleiSeverityEmoji severity ++ " " ++ upperS severity ++ " (" ++
        toString sevFindings.length ++ ")") :: "" ::
      (sevFindings.map nucleiFindingLines).flatten

/-- All lines of the severity-grouped report, from the computed
buckets. -/
def formatNucleiReportLines (b : SevBuckets) : List String :=
  ["# Nuclei Vulnerability Report", ""] ++
    nucleiSummaryLines b ++
    nucleiSeveritySection "critical" b.critical ++
    nucleiSeveritySection "high" b.high ++
    nucleiSeveritySection "medium" b.medium ++
    nucleiSeveritySection "low" b.low ++
    nucleiSeveritySection "info" b.info

/-- Format nuclei findings as a severity-grouped report
(`formatNucleiReport`).  The `TypeError` thrown by the grouping loop on
an inherited-member severity is modelled as `Except.error`. -/
def formatNucleiReport (findings : List NucleiFinding) : Except String String :=
  match groupBySeverityE findings with
  | .ok b => .ok (String.intercalate "\n" (formatNucleiReportLines b))
  | .error e => .error e

/-- Total number of findings held in the buckets. -/
def bucketsTotal (b : SevBuckets) : Nat :=
  b.critical.length + b.high.length + b.medium.length + b.low.length + b.info.length

theorem pushBySeverityE_total {b b1 : SevBuckets} {f : NucleiFinding}
    (h : pushBySeverityE b f = .ok b1) :
    bucketsTotal b1 = bucketsTotal b + 1 := by
  unfold pushBySeverityE at h
  split_ifs at h <;> injection h with h1 <;> subst h1 <;> simp [bucketsTotal] <;> omega

theorem groupBySeverityAux_total :
    ∀ (fs : List NucleiFinding) (b0 b : SevBuckets),
      groupBySeverityAux b0 fs = .ok b →
      bucketsTotal b = bucketsTotal b0 + fs.length := by
  intro fs
  induction fs with
  | nil =>
    intro b0 b h
    injection h with h1
    subst h1
    simp
  | cons f t ih =>
    intro b0 b h
    simp only [groupBySeverityAux] at h
    cases hp : pushBySeverityE b0 f with
    | ok b1 =>
      simp only [hp] at h
      rw [ih b1 b h, pushBySeverityE_total hp, List.length_cons]
      omega
    | error e =>
      simp only [hp] at h
      exact Except.noConfusion h

theorem groupBySeverityE_total {findings : List NucleiFinding} {b : SevBuckets}
    (h : groupBySeverityE findings = .ok b) :
    bucketsTotal b = findings.length := by
  have h2 := groupBySeverityAux_total findings ⟨[], [], [], [], []⟩ b h
  simpa [bucketsTotal] using h2

/-! ## Claim C7 -/

/-- C7 (corrected, counterexample): a finding whose severity lower-cases
to the inherited `constructor` member defeats the grouping loop: the
truthiness test sees the inherited `Object` constructor, and the `push`
call on it throws a `TypeError`, so no report and no summary counts are
produced.  Such a finding is producible by `parseNucleiJson` from a
one-line stream, since severities pass through unvalidated. -/
theorem C7_counterexample :
    formatNucleiReport
        [⟨"unknown", "Unknown", "constructor", "unknown", "", "", none, "T", none⟩] =
      .error "TypeError: bySeverity[sev].push is not a function" ∧
    parseNucleiJson "\x7b\"severity\":\"constructor\"\x7d" "T" =
      [⟨"unknown", "Unknown", "constructor", "unknown", "", "", none, "T", none⟩] :=
  ⟨by decide, by decide⟩

/-- C7, amended: whenever the grouping loop completes without throwing —
in particular for every finding list whose severities avoid the two
inherited member names — the report's summary contains exactly the five
severity bucket lines critical, high, medium, low, info, in that order,
each with a count even when the bucket is empty, and the five counts sum
to the number of input records. -/
theorem C7_summary_counts (findings : List NucleiFinding) (b : SevBuckets)
    (hok : groupBySeverityE findings = .ok b) :
    ∃ c h m l i : Nat,
      ["- Critical: " ++ toString c, "- High: " ++ toString h,
        "- Medium: " ++ toString m, "- Low: " ++ toString l,
        "- Info: " ++ toString i] <:+: formatNucleiReportLines b ∧
      c + h + m + l + i = findings.length ∧
      formatNucleiReport findings =
        .ok (String.intercalate "\n" (formatNucleiReportLines b)) := by
  refine ⟨b.critical.length, b.high.length, b.medium.length, b.low.length,
    b.info.length, ?_, ?_, ?_⟩
  · refine ⟨["# Nuclei Vulnerability Report", "", "## Summary"],
      [""] ++
        nucleiSeveritySection "critical" b.critical ++
        nucleiSeveritySection "high" b.high ++
        nucleiSeveritySection "medium" b.medium ++
        nucleiSeveritySection "low" b.low ++
        nucleiSeveritySection "info" b.info, ?_⟩
    simp [formatNucleiReportLines, nucleiSummaryLines]
  · have h := groupBySeverityE_total hok
    unfold bucketsTotal at h
    omega
  · unfold formatNucleiReport groupBySeverityE
    unfold groupBySeverityE at hok
    rw [hok]

/-- Witness for C7: the amended statement applied to a concrete pair of
findings, one with a recognized severity and one with an unrecognized
severity that lands in the `info` bucket. -/
theorem C7_witness :
    groupBySeverityE
        [⟨"t1", "A", "high", "http", "h1", "m1", none, "T", none⟩,
          ⟨"t2", "B", "weird", "http", "h2", "m2", none, "T", none⟩] =
      .ok ⟨[], [⟨"t1", "A", "high", "http", "h1", "m1", none, "T", none⟩], [], [],
        [⟨"t2", "B", "weird", "http", "h2", "m2", none, "T", none⟩]⟩ ∧
    (∃ c h m l i : Nat,
      ["- Critical: " ++ toString c, "- High: " ++ toString h,
        "- Medium: " ++ toString m, "- Low: " ++ toString l,
        "- Info: " ++ toString i] <:+:
          formatNucleiReportLines
            ⟨[], [⟨"t1", "A", "high", "http", "h1", "m1", none, "T", none⟩], [], [],
              [⟨"t2", "B", "weird", "http", "h2", "m2", none, "T", none⟩]⟩ ∧
      c + h + m + l + i =
        ([⟨"t1", "A", "high", "http", "h1", "m1", none, "T", none⟩,
          ⟨"t2", "B", "weird", "http", "h2", "m2", none, "T", none⟩] :
            List NucleiFinding).length ∧
      formatNucleiReport
          [⟨"t1", "A", "high", "http", "h1", "m1", none, "T", none⟩,
            ⟨"t2", "B", "weird", "http", "h2", "m2", none, "T", none⟩] =
        .ok (String.intercalate "\n"
          (formatNucleiReportLines
            ⟨[], [⟨"t1", "A", "high", "http", "h1", "m1", none, "T", none⟩], [], [],
              [⟨"t2", "B", "weird", "http", "h2", "m2", none, "T", none⟩]⟩))) :=
  ⟨by decide,
    C7_summary_counts
      [⟨"t1", "A", "high", "http", "h1", "m1", none, "T", none⟩,
        ⟨"t2", "B", "weird", "http", "h2", "m2", none, "T", none⟩]
      ⟨[], [⟨"t1", "A", "high", "http", "h1", "m1", none, "T", none⟩], [], [],
        [⟨"t2", "B", "weird", "http", "h2", "m2", none, "T", none⟩]⟩
      (by decide)⟩
